import Mathlib

/-!
# VoltDB execution engine: sequential scan and delete executors

A shallow embedding of `src/ee/executors/seqscanexecutor.cpp` and
`src/ee/executors/deleteexecutor.cpp`, followed by the properties proved
about them.

Conventions of the embedding.

* A pointer to a table becomes the table itself; `NULL` becomes `none`.  The
  one pointer comparison the code makes (`m_outputTable == m_targetTable`) is
  kept by the three-valued `TableRef`.
* `assert` is a fatal failure (`Fault.assertionFailed`); calling a member of a
  null pointer is `Fault.nullDereference`.
* `int` counters are integers reduced by `wrapInt32` after every increment.
* Storage, expressions and plan nodes are not part of the two source files;
  the few primitives the executors call are modelled from the specification
  and marked as such.
* Trace and debug logging has no behaviour and is left out.
* Exceptions thrown by the storage layer or by the evaluation of an
  expression (a temp table over its memory limit, a failed delete, a type
  error) abort the statement and are not part of the embedding: the
  primitives are total.
-/

set_option autoImplicit false

namespace voltdb

/-! ## Values, tuples, tables -/

/-- A column value. -/
abbrev NValue := Int

/-- A storage address: the slot of a row inside its table. -/
abbrev Address := Nat

/-- Reduction of an integer to the range of a 32-bit `int`. -/
def wrapInt32 (x : Int) : Int := (x + 2147483648) % 4294967296 - 2147483648

/-- What goes wrong fatally inside an executor. -/
inductive Fault where
  | assertionFailed
  | nullDereference
deriving DecidableEq, Repr

/-- Modelled from the spec: `TableTuple`, a schema-bound view over one row.
`sizeInValues` is the column count of the bound schema, `address` the storage
slot the view is positioned on, `values` the column values seen through it. -/
structure TableTuple where
  sizeInValues : Nat
  address : Option Address
  values : List NValue
deriving DecidableEq, Repr

/-- Modelled from the spec: `TableTuple::getNValue(idx)`, the per-column
accessor.  Reading a column the row does not have is outside the contract of
the accessor; the model returns 0 there. -/
def TableTuple.getNValue (t : TableTuple) (idx : Nat) : NValue := t.values.getD idx 0

/-- Modelled from the spec: `TableTuple::setNValue(idx, value)` on the values
of a tuple, the per-column mutator.  Writing a column the tuple does not have
is outside the contract of the mutator; the model leaves the tuple as it is. -/
def setNValue (values : List NValue) (idx : Nat) (value : NValue) : List NValue :=
  values.set idx value

/-- Modelled from the spec: `TableTuple::getSelfAddressColumn()`, the first
column of the row read as a storage address (an unsigned quantity: a negative
column value names no row and is read as address 0). -/
def TableTuple.getSelfAddressColumn (t : TableTuple) : Address := (t.getNValue 0).toNat

/-- Modelled from the spec: `TableTuple::move(address)`, repositioning a view
onto another storage address of the same schema. -/
def TableTuple.move (t : TableTuple) (a : Address) : TableTuple :=
  { t with address := some a, values := [] }

/-- Modelled from the spec: the constructor `TableTuple(schema)`, a view bound
to a schema and positioned nowhere. -/
def TableTuple.ofSchema (columnCount : Nat) : TableTuple :=
  { sizeInValues := columnCount, address := none, values := [] }

/-- Modelled from the spec: a `Table` (persistent or temporary).  Storage is a
sequence of slots, the address of a row being the index of its slot; a slot is
`none` once its row is deleted.  `isTempTable` is the dynamic type
(`TempTable` or not), `tempTuple` the values of the table's single scratch
tuple. -/
structure Table where
  name : String
  isTempTable : Bool
  columnCount : Nat
  slots : List (Option (List NValue))
  tempTuple : List NValue
deriving DecidableEq, Repr

/-- The views over the active rows of a slot sequence starting at address
`a`, in storage order. -/
def tuplesFrom (columnCount : Nat) : Address → List (Option (List NValue)) → List TableTuple
  | _, [] => []
  | a, none :: rest => tuplesFrom columnCount (a + 1) rest
  | a, some v :: rest =>
    { sizeInValues := columnCount, address := some a, values := v }
      :: tuplesFrom columnCount (a + 1) rest

/-- Modelled from the spec: `Table::iterator()` together with
`TableIterator::next`, the finite sequence of the active rows in storage
order. -/
def Table.iterator (t : Table) : List TableTuple := tuplesFrom t.columnCount 0 t.slots

/-- Modelled from the spec: `Table::activeTupleCount()`, the number of
logically present rows. -/
def Table.activeTupleCount (t : Table) : Int := ((t.slots.filter Option.isSome).length : Int)

/-- Modelled from the spec: `TempTable::insertTempTuple(tuple)`, appending a
copy of the tuple's values. -/
def Table.insertTempTuple (t : Table) (values : List NValue) : Table :=
  { t with slots := t.slots ++ [some values] }

/-- Modelled from the spec: `PersistentTable::deleteTuple(tuple, flag)`,
deleting the row the tuple is positioned on. -/
def Table.deleteTuple (t : Table) (tuple : TableTuple) : Table :=
  match tuple.address with
  | none => t
  | some a => { t with slots := t.slots.set a none }

/-- Modelled from the spec: `PersistentTable::deleteAllTuples(flag)`, the bulk
delete after which no row is active. -/
def Table.deleteAllTuples (t : Table) : Table :=
  { t with slots := [] }

/-! ## Expressions and plan nodes -/

/-- Modelled from the spec: an expression of the projection list, either a
bare reference to one input column (`TupleValueExpression`) or anything else,
seen only through its evaluation on a tuple. -/
inductive AbstractExpression where
  | tupleValue (columnId : Nat)
  | other (f : TableTuple → NValue)

/-- Modelled from the spec: `AbstractExpression::eval(tuple)`; a bare column
reference reads that column of the tuple. -/
def AbstractExpression.eval : AbstractExpression → TableTuple → NValue
  | .tupleValue c, t => t.getNValue c
  | .other f, t => f t

/-- Modelled from the spec: an inline plan node fused into its parent. -/
inductive InlinePlanNode where
  | projection (outputExpressions : List AbstractExpression)
  | limit (limit offset : Int)
  | other

/-- Modelled from the spec: `SeqScanPlanNode`.  `predicate` is
`getPredicate()` composed with `eval(tuple).isTrue()`, `none` being `NULL`;
`outputColumnCount` is the column count of the output schema of the plan. -/
structure SeqScanPlanNode where
  predicate : Option (TableTuple → Bool)
  inlinePlanNodes : List InlinePlanNode
  outputColumnCount : Nat

/-- Modelled from the spec: `DeletePlanNode` with its truncate flag. -/
structure DeletePlanNode where
  truncate : Bool

/-- The plan node an executor is bound to (`m_abstractNode`), with its
dynamic type. -/
inductive AbstractPlanNode where
  | seqScan (node : SeqScanPlanNode)
  | delete (node : DeletePlanNode)
  | other

/-- Modelled from the spec: `getInlinePlanNode(PLAN_NODE_TYPE_PROJECTION)`
followed by `ProjectionExecutor::outputExpressions`. -/
def SeqScanPlanNode.getInlineProjection (node : SeqScanPlanNode) :
    Option (List AbstractExpression) :=
  node.inlinePlanNodes.findSome? fun n =>
    match n with
    | .projection es => some es
    | _ => none

/-- Modelled from the spec: `getInlinePlanNode(PLAN_NODE_TYPE_LIMIT)` followed
by `LimitPlanNode::getLimitAndOffsetByReference`. -/
def SeqScanPlanNode.getInlineLimit (node : SeqScanPlanNode) : Option (Int × Int) :=
  node.inlinePlanNodes.findSome? fun n =>
    match n with
    | .limit l o => some (l, o)
    | _ => none

/-- The column a bare column reference names; `none` for any other
expression (the `dynamic_cast` to `TupleValueExpression`). -/
def AbstractExpression.columnId? : AbstractExpression → Option Nat
  | .tupleValue c => some c
  | .other _ => none

/-- Modelled from the spec: `ProjectionExecutor::indexesIfAllTupleValues`,
the source column indices when every expression is a bare column reference,
and the empty vector otherwise. -/
def indexesIfAllTupleValues (es : List AbstractExpression) : List Nat :=
  if es.all (fun e => e.columnId?.isSome) then es.filterMap AbstractExpression.columnId? else []

/-! ## SeqScanExecutor -/

/-- The value of the pointer `m_outputTable`: null, the very object
`m_targetTable` points to, or a table object of its own. -/
inductive TableRef where
  | null
  | sameAsTarget
  | other (t : Table)

/-- The members of `SeqScanExecutor` the three functions use. -/
structure SeqScanExecutor where
  m_abstractNode : AbstractPlanNode
  m_targetTable : Option Table
  m_outputTable : TableRef
  m_columnExpressions : List AbstractExpression
  m_columnsOnly : List Nat
  m_tuple : TableTuple

/-- Modelled from the spec: `AbstractExecutor::setTempOutputTable(limits,
name)`, creating an empty temp table with the output schema of the plan. -/
def setTempOutputTable (outputColumnCount : Nat) (name : String) : Table :=
  { name := name, isTempTable := true, columnCount := outputColumnCount, slots := [],
    tempTuple := List.replicate outputColumnCount 0 }

/-- `SeqScanExecutor::p_setOutputTable` (lines 62-85). -/
def SeqScanExecutor.p_setOutputTable (ex : SeqScanExecutor) : Except Fault SeqScanExecutor :=
  match ex.m_targetTable with
  | none => .error .assertionFailed
  | some target =>
    match ex.m_abstractNode with
    | .seqScan node =>
      if node.predicate.isNone ∧ node.inlinePlanNodes.length = 0 then
        .ok { ex with m_outputTable := .sameAsTarget }
      else
        .ok { ex with m_outputTable := .other (setTempOutputTable node.outputColumnCount target.name) }
    | _ => .error .assertionFailed

/-- The pointer comparison `m_outputTable == m_targetTable`; two null pointers
are equal. -/
def SeqScanExecutor.outputIsTarget (ex : SeqScanExecutor) : Bool :=
  match ex.m_outputTable, ex.m_targetTable with
  | .sameAsTarget, _ => true
  | .null, none => true
  | _, _ => false

/-- `SeqScanExecutor::p_init` (lines 87-107); the Boolean is the value
returned. -/
def SeqScanExecutor.p_init (ex : SeqScanExecutor) : Except Fault (Bool × SeqScanExecutor) :=
  match ex.m_abstractNode with
  | .seqScan node =>
    if ex.outputIsTarget then .ok (true, ex)
    else
      let ex1 : SeqScanExecutor :=
        match node.getInlineProjection with
        | some es =>
          { ex with m_columnExpressions := es, m_columnsOnly := indexesIfAllTupleValues es }
        | none => ex
      match ex1.m_targetTable with
      | none => .error .nullDereference
      | some target => .ok (true, { ex1 with m_tuple := TableTuple.ofSchema target.columnCount })
  | _ => .error .assertionFailed

/-- What the while loop of `p_execute` reads and does not change. -/
structure ScanEnv where
  predicate : Option (TableTuple → Bool)
  limit : Int
  offset : Int
  hasInlineProjection : Bool
  projectsColumnsOnly : Bool
  m_columnsOnly : List Nat
  m_columnExpressions : List AbstractExpression
  output_temp_table : Bool

/-- What the while loop of `p_execute` changes: the member `m_tuple`, the two
counters and the output table with its scratch tuple.  `predicateEvals` is a
ghost counter of the calls of `predicate->eval`. -/
structure ScanLocals where
  m_tuple : TableTuple
  tuple_ctr : Int
  tuple_skipped : Int
  output : Table
  predicateEvals : Nat

/-- Lines 183-185: copy column `m_columnsOnly[ctr]` of the input tuple into
column `ctr` of the scratch tuple, for `ctr` from `n - 1` down to 0. -/
def copyColumnsOnly (m_columnsOnly : List Nat) (m_tuple : TableTuple) :
    Nat → List NValue → List NValue
  | 0, temp_tuple => temp_tuple
  | ctr + 1, temp_tuple =>
    copyColumnsOnly m_columnsOnly m_tuple ctr
      (setNValue temp_tuple ctr (m_tuple.getNValue (m_columnsOnly.getD ctr 0)))

/-- Lines 187-189: evaluate expression `ctr` on the input tuple into column
`ctr` of the scratch tuple, for `ctr` from `n - 1` down to 0. -/
def evalColumnExpressions (m_columnExpressions : List AbstractExpression) (m_tuple : TableTuple) :
    Nat → List NValue → List NValue
  | 0, temp_tuple => temp_tuple
  | ctr + 1, temp_tuple =>
    evalColumnExpressions m_columnExpressions m_tuple ctr
      (setNValue temp_tuple ctr
        ((m_columnExpressions.getD ctr (.tupleValue 0)).eval m_tuple))

/-- Lines 179-195 for a valid temp table: the output table after the input
tuple has been projected (or taken whole) and inserted. -/
def emitRow (e : ScanEnv) (output : Table) (m_tuple : TableTuple) : Table :=
  if e.hasInlineProjection then
    let temp_tuple :=
      if e.projectsColumnsOnly then
        copyColumnsOnly e.m_columnsOnly m_tuple e.m_columnsOnly.length output.tempTuple
      else
        evalColumnExpressions e.m_columnExpressions m_tuple e.m_columnExpressions.length
          output.tempTuple
    ({ output with tempTuple := temp_tuple } : Table).insertTempTuple temp_tuple
  else
    output.insertTempTuple m_tuple.values

/-- The test of line 171, `predicate == NULL || predicate->eval(&m_tuple).isTrue()`:
whether a row satisfies the predicate, every row doing so when there is none. -/
def qualifies (predicate : Option (TableTuple → Bool)) (t : TableTuple) : Bool :=
  match predicate with
  | none => true
  | some p => p t

/-- The while loop of `p_execute` (lines 164-197) over the rows the iterator
has still to produce.  Returns the rows the iterator was never asked for and
the locals at loop exit; `insertTempTuple` through a null `output_temp_table`
is a fault. -/
def scanLoop (e : ScanEnv) : List TableTuple → ScanLocals →
    Except Fault (List TableTuple × ScanLocals)
  | [], s => .ok ([], s)
  | t :: rest, s =>
    if e.limit = -1 ∨ s.tuple_ctr < e.limit then
      let s1 : ScanLocals :=
        { s with m_tuple := t,
                 predicateEvals := s.predicateEvals + (if e.predicate.isSome then 1 else 0) }
      if qualifies e.predicate t then
        if s1.tuple_skipped < e.offset then
          scanLoop e rest { s1 with tuple_skipped := wrapInt32 (s1.tuple_skipped + 1) }
        else
          let s2 : ScanLocals := { s1 with tuple_ctr := wrapInt32 (s1.tuple_ctr + 1) }
          if e.output_temp_table then
            scanLoop e rest { s2 with output := emitRow e s2.output t }
          else .error .nullDereference
      else scanLoop e rest s1
    else .ok (t :: rest, s)

/-- What `p_execute` leaves behind: the executor, and two ghost counts, the
rows fetched from the iterator of the target table and the predicate
evaluations. -/
structure ScanResult where
  executor : SeqScanExecutor
  rowsFetched : Nat
  predicateEvals : Nat

/-- The loop constants `p_execute` sets up in lines 134-160. -/
def SeqScanExecutor.scanEnv (ex : SeqScanExecutor) (node : SeqScanPlanNode) (out : Table) :
    ScanEnv :=
  { predicate := node.predicate
    limit := match node.getInlineLimit with
      | some (l, _) => l
      | none => -1
    offset := match node.getInlineLimit with
      | some (_, o) => o
      | none => -1
    hasInlineProjection := !ex.m_columnExpressions.isEmpty
    projectsColumnsOnly := !ex.m_columnsOnly.isEmpty
    m_columnsOnly := ex.m_columnsOnly
    m_columnExpressions := ex.m_columnExpressions
    output_temp_table := out.isTempTable }

/-- `SeqScanExecutor::p_execute` (lines 109-200). -/
def SeqScanExecutor.p_execute (ex : SeqScanExecutor) : Except Fault ScanResult :=
  match ex.m_abstractNode with
  | .seqScan node =>
    match ex.m_outputTable, ex.m_targetTable with
    | .null, _ => .error .assertionFailed
    | _, none => .error .assertionFailed
    | .sameAsTarget, some _ => .ok { executor := ex, rowsFetched := 0, predicateEvals := 0 }
    | .other out, some target =>
      match scanLoop (ex.scanEnv node out) target.iterator
          { m_tuple := ex.m_tuple, tuple_ctr := 0, tuple_skipped := 0, output := out,
            predicateEvals := 0 } with
      | .error f => .error f
      | .ok (iterator, s) =>
        .ok { executor := { ex with m_tuple := s.m_tuple, m_outputTable := .other s.output }
              rowsFetched := target.iterator.length - iterator.length
              predicateEvals := s.predicateEvals }
  | _ => .error .assertionFailed

/-! ## DeleteExecutor -/

/-- A call `DeleteExecutor::p_execute` makes on the storage layer or on the
result-reporting interface, as recorded in the ghost trace of the executor. -/
inductive Call where
  | activeTupleCount
  | deleteAllTuples (flag : Bool)
  | iterator
  | next (produced : Bool)
  | deleteTuple (tuple : TableTuple) (flag : Bool)
  | storeModifiedTupleCount (modifiedTuples : Int)
deriving DecidableEq, Repr

/-- The members of `DeleteExecutor` the two functions use.  `inputTables` are
the input tables bound to the executor; `calls` is the ghost trace of the
calls made so far, oldest first. -/
structure DeleteExecutor where
  m_abstractNode : AbstractPlanNode
  inputTables : List Table
  m_targetTable : Option Table
  m_inputTuple : TableTuple
  m_targetTuple : TableTuple
  m_truncate : Bool
  calls : List Call

/-- Modelled from the spec: the member `m_inputTable`, the bound input table
when there is one and `NULL` otherwise. -/
def DeleteExecutor.m_inputTable (ex : DeleteExecutor) : Option Table := ex.inputTables.head?

/-- Modelled from the spec: `hasExactlyOneInputTable()`, the arity check of
an executor that expects exactly one bound input table. -/
def DeleteExecutor.hasExactlyOneInputTable (ex : DeleteExecutor) : Bool :=
  ex.inputTables.length == 1

/-- `DeleteExecutor::p_init` (lines 59-79); the Boolean is the value
returned. -/
def DeleteExecutor.p_init (ex : DeleteExecutor) : Except Fault (Bool × DeleteExecutor) :=
  match ex.m_abstractNode with
  | .delete node =>
    match ex.m_targetTable with
    | none => .error .assertionFailed
    | some target =>
      let ex1 : DeleteExecutor := { ex with m_truncate := node.truncate }
      if ex1.m_truncate then
        if ex1.m_inputTable.isNone then .ok (true, ex1) else .error .assertionFailed
      else if !ex1.hasExactlyOneInputTable then .error .assertionFailed
      else
        match ex1.m_inputTable with
        | none => .error .nullDereference
        | some input =>
          .ok (true, { ex1 with m_inputTuple := TableTuple.ofSchema input.columnCount,
                                m_targetTuple := TableTuple.ofSchema target.columnCount })
  | _ => .error .assertionFailed

/-- What the while loop of `DeleteExecutor::p_execute` changes.  The counter
`modifiedTuples` is an `int64_t`; a count of rows held in memory stays below
`2^63`, so it is not reduced. -/
structure DeleteLocals where
  m_inputTuple : TableTuple
  m_targetTuple : TableTuple
  target : Table
  modifiedTuples : Int
  calls : List Call

/-- The while loop of `DeleteExecutor::p_execute` (lines 99-114) over the rows
the input iterator has still to produce. -/
def deleteLoop : List TableTuple → DeleteLocals → DeleteLocals
  | [], s => { s with calls := s.calls ++ [.next false] }
  | t :: rest, s =>
    let targetAddress := t.getSelfAddressColumn
    let m_targetTuple := s.m_targetTuple.move targetAddress
    deleteLoop rest
      { m_inputTuple := t
        m_targetTuple := m_targetTuple
        target := s.target.deleteTuple m_targetTuple
        modifiedTuples := s.modifiedTuples + 1
        calls := s.calls ++ [.next true, .deleteTuple m_targetTuple true] }

/-- `DeleteExecutor::p_execute` (lines 81-117). -/
def DeleteExecutor.p_execute (ex : DeleteExecutor) : Except Fault DeleteExecutor :=
  match ex.m_targetTable with
  | none => .error .assertionFailed
  | some target =>
    if ex.m_truncate then
      let modifiedTuples := target.activeTupleCount
      .ok { ex with
            m_targetTable := some target.deleteAllTuples
            calls := ex.calls ++ [.activeTupleCount, .deleteAllTuples true,
              .storeModifiedTupleCount modifiedTuples] }
    else
      match ex.m_inputTable with
      | none => .error .assertionFailed
      | some input =>
        if ex.m_inputTuple.sizeInValues ≠ input.columnCount then .error .assertionFailed
        else if ex.m_targetTuple.sizeInValues ≠ target.columnCount then .error .assertionFailed
        else
          let s := deleteLoop input.iterator
            { m_inputTuple := ex.m_inputTuple
              m_targetTuple := ex.m_targetTuple
              target := target
              modifiedTuples := 0
              calls := ex.calls ++ [.iterator] }
          .ok { ex with
                m_inputTuple := s.m_inputTuple
                m_targetTuple := s.m_targetTuple
                m_targetTable := some s.target
                calls := s.calls ++ [.storeModifiedTupleCount s.modifiedTuples] }

/-! ## Notions used to state the properties -/

/-- The rows a scan emits from `rows`, when `k` qualifying rows are still to
be skipped and `m` rows may still be emitted (`none`: no bound). -/
def emittedRows (q : TableTuple → Bool) : Nat → Option Nat → List TableTuple → List TableTuple
  | _, _, [] => []
  | k, m, t :: rest =>
    if m = some 0 then []
    else if q t then
      if 0 < k then emittedRows q (k - 1) m rest
      else t :: emittedRows q 0 (m.map (· - 1)) rest
    else emittedRows q k m rest

/-- The number of rows a scan fetches from `rows`, when `k` qualifying rows
are still to be skipped and `m` rows may still be emitted (`none`: no bound). -/
def fetchedRows (q : TableTuple → Bool) : Nat → Option Nat → List TableTuple → Nat
  | _, _, [] => 0
  | k, m, t :: rest =>
    if m = some 0 then 0
    else if q t then
      if 0 < k then fetchedRows q (k - 1) m rest + 1
      else fetchedRows q 0 (m.map (· - 1)) rest + 1
    else fetchedRows q k m rest + 1

/-- The qualifying rows still to be skipped, from the offset and the counter
`tuple_skipped`. -/
def remainingSkip (offset tuple_skipped : Int) : Nat := (offset - tuple_skipped).toNat

/-- The rows that may still be emitted, from the limit and the counter
`tuple_ctr`; `none` when the limit is the sentinel -1. -/
def remainingLimit (limit tuple_ctr : Int) : Option Nat :=
  if limit = -1 then none else some (limit - tuple_ctr).toNat

/-- The emitted count the specification gives for `N` qualifying rows, offset
`O` and limit `L`. -/
def specEmittedCount (N O L : Int) : Int :=
  if L = -1 then max 0 (N - O) else max 0 (min (N - O) L)

/-- Writing the projected columns of a row into the scratch tuple in the
order given: column `ctr` receives expression `ctr` evaluated on the row. -/
def writeColumns (m_columnExpressions : List AbstractExpression) (m_tuple : TableTuple)
    (order : List Nat) (temp_tuple : List NValue) : List NValue :=
  order.foldl (fun temp ctr =>
    setNValue temp ctr ((m_columnExpressions.getD ctr (.tupleValue 0)).eval m_tuple)) temp_tuple

/-- The source rows a scan emits: the qualifying rows `Q` from position
`offset` on, at most `limit` of them unless the limit is the sentinel -1. -/
def emittedSourceRows (Q : List TableTuple) (offset limit : Int) : List TableTuple :=
  if limit = -1 then Q.drop offset.toNat else (Q.drop offset.toNat).take limit.toNat

/-- The calls the while loop of `DeleteExecutor::p_execute` makes for the
input rows given: per row a successful `next` and one `deleteTuple` on the
target tuple moved to the address in the first column of the row, and at the
end the `next` that finds the iterator exhausted. -/
def deleteCalls (m_targetTuple : TableTuple) : List TableTuple → List Call
  | [] => [.next false]
  | t :: rest =>
    .next true :: .deleteTuple (m_targetTuple.move t.getSelfAddressColumn) true
      :: deleteCalls m_targetTuple rest

/-- The slots of a table after the rows at the addresses given have been
deleted one after the other. -/
def deleteSlots (slots : List (Option (List NValue))) (addresses : List Address) :
    List (Option (List NValue)) :=
  addresses.foldl (fun sl a => sl.set a none) slots

/-- Whether a call of the trace is a single-row `deleteTuple`. -/
def Call.isDeleteTuple : Call → Bool
  | .deleteTuple _ _ => true
  | _ => false

/-- Whether the output table is the target table itself or an object whose
dynamic type is `TempTable`. -/
def TableRef.isTargetOrTemp : TableRef → Bool
  | .null => false
  | .sameAsTarget => true
  | .other t => t.isTempTable

/-- The executor after `n` calls of `p_execute` in a row, each on the executor
the previous one left. -/
def SeqScanExecutor.executeTimes : Nat → SeqScanExecutor → Except Fault SeqScanExecutor
  | 0, ex => .ok ex
  | n + 1, ex =>
    match ex.p_execute with
    | .error f => .error f
    | .ok r => SeqScanExecutor.executeTimes n r.executor

/-- Two scratch tuples of the same length that agree in every column from `n` on. -/
def sameBeyond (n : Nat) (a b : List NValue) : Prop :=
  a.length = b.length ∧ ∀ k, n ≤ k → a[k]? = b[k]?

/-- The number of columns the projection of a scan writes into the scratch
tuple: none without projection, otherwise the length of the list the loop
taken runs over. -/
def ScanEnv.columnsWritten (e : ScanEnv) : Nat :=
  if e.hasInlineProjection then
    if e.projectsColumnsOnly then e.m_columnsOnly.length else e.m_columnExpressions.length
  else 0

/-! ## Worked examples -/

/-- A persistent table of one column holding the rows 1, 2, 3, 4, 5. -/
def exampleTarget : Table :=
  { name := "T", isTempTable := false, columnCount := 1,
    slots := [some [1], some [2], some [3], some [4], some [5]], tempTuple := [0] }

/-- The scan `column0 > 2` with limit 2 and offset 1, without projection. -/
def exampleScanNode : SeqScanPlanNode :=
  { predicate := some (fun t => decide (2 < t.getNValue 0)),
    inlinePlanNodes := [.limit 2 1], outputColumnCount := 1 }

/-- The scan `column0 > 2` without inline nodes. -/
def exampleFilterNode : SeqScanPlanNode :=
  { predicate := some (fun t => decide (2 < t.getNValue 0)),
    inlinePlanNodes := [], outputColumnCount := 1 }

/-- An executor bound to a scan node and `exampleTarget`, before
`p_setOutputTable`. -/
def exampleFreshScan (node : SeqScanPlanNode) : SeqScanExecutor :=
  { m_abstractNode := .seqScan node, m_targetTable := some exampleTarget,
    m_outputTable := .null,
    m_columnExpressions := [], m_columnsOnly := [], m_tuple := TableTuple.ofSchema 0 }

/-- An executor bound to a scan node and `exampleTarget`, as it is after
`p_setOutputTable` and `p_init`. -/
def exampleScan (node : SeqScanPlanNode) : SeqScanExecutor :=
  { m_abstractNode := .seqScan node, m_targetTable := some exampleTarget,
    m_outputTable := .other (setTempOutputTable node.outputColumnCount "T"),
    m_columnExpressions := [], m_columnsOnly := [], m_tuple := TableTuple.ofSchema 1 }

/-- The scan `column0 > 2` with limit 1 and offset 1, without projection. -/
def exampleEarlyNode : SeqScanPlanNode :=
  { predicate := some (fun t => decide (2 < t.getNValue 0)),
    inlinePlanNodes := [.limit 1 1], outputColumnCount := 1 }

/-- A persistent table of two columns. -/
def exampleTarget2 : Table :=
  { name := "T", isTempTable := false, columnCount := 2,
    slots := [some [1, 10], some [2, 20], some [3, 30], some [4, 40], some [5, 50]],
    tempTuple := [0, 0] }

/-- The scan `column0 > 2` with limit 2 and offset 1 and an inline projection
to the columns 1 and 0, in this order. -/
def exampleProjectionNode : SeqScanPlanNode :=
  { predicate := some (fun t => decide (2 < t.getNValue 0)),
    inlinePlanNodes := [.projection [.tupleValue 1, .tupleValue 0], .limit 2 1],
    outputColumnCount := 2 }

/-- An executor bound to `exampleProjectionNode` and `exampleTarget2`, as it
is after `p_setOutputTable` and `p_init`, but for `m_columnsOnly`. -/
def exampleProjectionScan : SeqScanExecutor :=
  { m_abstractNode := .seqScan exampleProjectionNode, m_targetTable := some exampleTarget2,
    m_outputTable := .other (setTempOutputTable 2 "T"),
    m_columnExpressions := [.tupleValue 1, .tupleValue 0], m_columnsOnly := [],
    m_tuple := TableTuple.ofSchema 2 }

/-- The scan `column0 > 2` with limit 2 and offset 1 and an inline projection
to ten times column 0 and column 0. -/
def exampleGeneralNode : SeqScanPlanNode :=
  { predicate := some (fun t => decide (2 < t.getNValue 0)),
    inlinePlanNodes :=
      [.projection [.other (fun t => t.getNValue 0 * 10), .tupleValue 0], .limit 2 1],
    outputColumnCount := 2 }

/-- An executor bound to `exampleGeneralNode` and `exampleTarget`, as it is
after `p_setOutputTable` and `p_init`. -/
def exampleGeneralScan : SeqScanExecutor :=
  { m_abstractNode := .seqScan exampleGeneralNode, m_targetTable := some exampleTarget,
    m_outputTable := .other (setTempOutputTable 2 "T"),
    m_columnExpressions := [.other (fun t => t.getNValue 0 * 10), .tupleValue 0],
    m_columnsOnly := [], m_tuple := TableTuple.ofSchema 1 }

/-- A persistent table of one column with seven active rows. -/
def exampleSeven : Table :=
  { name := "S", isTempTable := false, columnCount := 1,
    slots := [some [10], some [11], some [12], some [13], some [14], some [15], some [16]],
    tempTuple := [0] }

/-- A delete executor in truncate mode bound to `exampleSeven`, as it is
after `p_init`. -/
def exampleTruncate : DeleteExecutor :=
  { m_abstractNode := .delete { truncate := true }, inputTables := [],
    m_targetTable := some exampleSeven, m_inputTuple := TableTuple.ofSchema 0,
    m_targetTuple := TableTuple.ofSchema 0, m_truncate := true, calls := [] }

/-- A temp table whose rows hold in their first column the addresses 2 and 5. -/
def exampleAddresses : Table :=
  { name := "A", isTempTable := true, columnCount := 1,
    slots := [some [2], some [5]], tempTuple := [0] }

/-- A delete executor in targeted mode bound to `exampleSeven` and the input
table `exampleAddresses`, as it is after `p_init`. -/
def exampleTargeted : DeleteExecutor :=
  { m_abstractNode := .delete { truncate := false }, inputTables := [exampleAddresses],
    m_targetTable := some exampleSeven, m_inputTuple := TableTuple.ofSchema 1,
    m_targetTuple := TableTuple.ofSchema 1, m_truncate := false, calls := [] }

/-- A delete executor in targeted mode bound to `exampleSeven` and an input
table without rows, as it is after `p_init`. -/
def exampleTargetedEmpty : DeleteExecutor :=
  { m_abstractNode := .delete { truncate := false },
    inputTables := [{ exampleAddresses with slots := [] }],
    m_targetTable := some exampleSeven, m_inputTuple := TableTuple.ofSchema 1,
    m_targetTuple := TableTuple.ofSchema 1, m_truncate := false, calls := [] }

/-- The scan without predicate and without inline nodes. -/
def exampleAliasNode : SeqScanPlanNode :=
  { predicate := none, inlinePlanNodes := [], outputColumnCount := 1 }

/-- An executor bound to `exampleAliasNode` and `exampleTarget`, as it is after
`p_setOutputTable` and `p_init`: the output table is the target table. -/
def exampleAliasScan : SeqScanExecutor :=
  { m_abstractNode := .seqScan exampleAliasNode, m_targetTable := some exampleTarget,
    m_outputTable := .sameAsTarget,
    m_columnExpressions := [], m_columnsOnly := [], m_tuple := TableTuple.ofSchema 0 }

/-- The scan `column0 > 2` with limit -2 and offset 0, without projection. -/
def exampleNegativeNode : SeqScanPlanNode :=
  { predicate := some (fun t => decide (2 < t.getNValue 0)),
    inlinePlanNodes := [.limit (-2) 0], outputColumnCount := 1 }

/-! ## The scan loop -/

theorem wrapInt32_eq (x : Int) (h1 : -2147483648 ≤ x) (h2 : x < 2147483648) : wrapInt32 x = x := by
  unfold wrapInt32; omega

theorem wrapInt32_ge (x : Int) : -2147483648 ≤ wrapInt32 x := by
  unfold wrapInt32; omega

theorem scanLoop_ok (e : ScanEnv) (hcast : e.output_temp_table = true)
    (hoff : e.offset < 2147483648) (hlim : e.limit < 2147483648) :
    ∀ (rows : List TableTuple) (mt : TableTuple) (ctr skipped : Int) (out : Table) (ev : Nat),
      -2147483648 ≤ skipped → (e.limit ≠ -1 → -2147483648 ≤ ctr) →
      ∃ s', scanLoop e rows ⟨mt, ctr, skipped, out, ev⟩
          = .ok (rows.drop (fetchedRows (qualifies e.predicate) (remainingSkip e.offset skipped)
                  (remainingLimit e.limit ctr) rows), s') ∧
        s'.output = (emittedRows (qualifies e.predicate) (remainingSkip e.offset skipped)
                  (remainingLimit e.limit ctr) rows).foldl (emitRow e) out ∧
        s'.predicateEvals = ev + (if e.predicate.isSome then
          fetchedRows (qualifies e.predicate) (remainingSkip e.offset skipped)
            (remainingLimit e.limit ctr) rows else 0) := by
  intro rows
  induction rows with
  | nil => intro mt ctr skipped out ev _ _; exact ⟨⟨mt, ctr, skipped, out, ev⟩, by simp [scanLoop, fetchedRows, emittedRows]⟩
  | cons t rest ih =>
    intro mt ctr skipped out ev hs hc
    by_cases hg : e.limit = -1 ∨ ctr < e.limit
    · have hm : remainingLimit e.limit ctr ≠ some 0 := by
        unfold remainingLimit
        split
        · simp
        · simp; omega
      by_cases hq : qualifies e.predicate t = true
      · by_cases hk : skipped < e.offset
        · have hk' : 0 < remainingSkip e.offset skipped := by unfold remainingSkip; omega
          have hw : wrapInt32 (skipped + 1) = skipped + 1 := wrapInt32_eq _ (by omega) (by omega)
          have hk2 : remainingSkip e.offset (skipped + 1) = remainingSkip e.offset skipped - 1 := by
            unfold remainingSkip; omega
          obtain ⟨s', h1, h2, h3⟩ := ih t ctr (skipped + 1)
            out (ev + (if e.predicate.isSome then 1 else 0)) (by omega) hc
          refine ⟨s', ?_, ?_, ?_⟩
          · simp only [scanLoop, if_pos hg, hq, if_pos hk, hw, h1, fetchedRows, if_neg hm, hk2,
              if_pos hk', if_true, List.drop_succ_cons]
          · simp only [h2, emittedRows, if_neg hm, hq, if_true, if_pos hk', hk2]
          · simp only [h3, fetchedRows, if_neg hm, hq, if_true, if_pos hk', hk2]
            split <;> omega
        · have hk' : ¬ 0 < remainingSkip e.offset skipped := by unfold remainingSkip; omega
          have hk0 : remainingSkip e.offset skipped = 0 := by omega
          have hm2 : remainingLimit e.limit (wrapInt32 (ctr + 1))
              = (remainingLimit e.limit ctr).map (· - 1) := by
            unfold remainingLimit
            by_cases hl : e.limit = -1
            · simp [hl]
            · have : ctr < e.limit := by omega
              have := hc hl
              rw [wrapInt32_eq _ (by omega) (by omega)]
              simp [hl]; omega
          obtain ⟨s', h1, h2, h3⟩ := ih t (wrapInt32 (ctr + 1)) skipped
            (emitRow e out t) (ev + (if e.predicate.isSome then 1 else 0)) hs
            (fun _ => wrapInt32_ge _)
          rw [hm2] at h1 h2 h3
          rw [hk0] at h1 h2 h3
          refine ⟨s', ?_, ?_, ?_⟩
          · rw [hk0]
            simp [scanLoop, hg, hq, hk, hcast, h1, fetchedRows, hm]
          · rw [hk0]
            simp [h2, emittedRows, hm, hq]
          · rw [hk0]
            simp only [h3, fetchedRows, if_neg hm, hq, if_true, Nat.lt_irrefl, if_false]
            split <;> omega
      · obtain ⟨s', h1, h2, h3⟩ := ih t ctr skipped
            out (ev + (if e.predicate.isSome then 1 else 0)) hs hc
        refine ⟨s', ?_, ?_, ?_⟩
        · simp only [scanLoop, if_pos hg, hq, h1, fetchedRows, if_neg hm,
            List.drop_succ_cons]
          simp
        · simp only [h2, emittedRows, if_neg hm, hq]
          simp
        · simp only [h3, fetchedRows, if_neg hm, hq]
          simp
          split <;> omega
    · have hm : remainingLimit e.limit ctr = some 0 := by
        unfold remainingLimit
        have : ¬ e.limit = -1 := fun h => hg (Or.inl h)
        simp [this]
        have := hc this
        omega
      exact ⟨⟨mt, ctr, skipped, out, ev⟩, by simp [scanLoop, hg, fetchedRows, emittedRows, hm]⟩

theorem emittedRows_none (q : TableTuple → Bool) :
    ∀ (rows : List TableTuple) (k : Nat), emittedRows q k none rows = (rows.filter q).drop k := by
  intro rows
  induction rows with
  | nil => intro k; simp [emittedRows]
  | cons t rest ih =>
    intro k
    by_cases hq : q t = true
    · cases k with
      | zero => simp [emittedRows, hq, ih]
      | succ k => simp [emittedRows, hq, ih]
    · simp [emittedRows, hq, ih]

theorem emittedRows_some (q : TableTuple → Bool) :
    ∀ (rows : List TableTuple) (k m : Nat),
      emittedRows q k (some m) rows = ((rows.filter q).drop k).take m := by
  intro rows
  induction rows with
  | nil => intro k m; simp [emittedRows]
  | cons t rest ih =>
    intro k m
    cases m with
    | zero => simp [emittedRows]
    | succ m =>
      by_cases hq : q t = true
      · cases k with
        | zero => simp [emittedRows, hq, ih]
        | succ k => simp [emittedRows, hq, ih]
      · simp [emittedRows, hq, ih]

theorem fetchedRows_none (q : TableTuple → Bool) :
    ∀ (rows : List TableTuple) (k : Nat), fetchedRows q k none rows = rows.length := by
  intro rows
  induction rows with
  | nil => intro k; simp [fetchedRows]
  | cons t rest ih =>
    intro k
    by_cases hq : q t = true
    · cases k with
      | zero => simp [fetchedRows, hq, ih]
      | succ k => simp [fetchedRows, hq, ih]
    · simp [fetchedRows, hq, ih]

theorem fetchedRows_zero (q : TableTuple → Bool) (rows : List TableTuple) (k : Nat) :
    fetchedRows q k (some 0) rows = 0 := by
  cases rows <;> simp [fetchedRows]

theorem fetchedRows_short (q : TableTuple → Bool) :
    ∀ (rows : List TableTuple) (k m : Nat), (rows.filter q).length < k + (m + 1) →
      fetchedRows q k (some (m + 1)) rows = rows.length := by
  intro rows
  induction rows with
  | nil => intro k m _; simp [fetchedRows]
  | cons t rest ih =>
    intro k m h
    by_cases hq : q t = true
    · simp only [List.filter_cons, hq, if_true, List.length_cons] at h
      cases k with
      | zero =>
        cases m with
        | zero => omega
        | succ m =>
          have := ih 0 m (by omega)
          simp [fetchedRows, hq, this]
      | succ k =>
        have := ih k m (by omega)
        simp [fetchedRows, hq, this]
    · simp only [List.filter_cons, hq] at h
      have := ih k m (by simpa using h)
      simp [fetchedRows, hq, this]

theorem fetchedRows_stop (q : TableTuple → Bool) :
    ∀ (rows : List TableTuple) (k m : Nat), k + (m + 1) ≤ (rows.filter q).length →
      ∃ pre t post, rows = pre ++ t :: post ∧ q t = true ∧ (pre.filter q).length = k + m ∧
        fetchedRows q k (some (m + 1)) rows = pre.length + 1 := by
  intro rows
  induction rows with
  | nil => intro k m h; simp at h
  | cons t rest ih =>
    intro k m h
    by_cases hq : q t = true
    · simp only [List.filter_cons, hq, if_true, List.length_cons] at h
      cases k with
      | zero =>
        cases m with
        | zero =>
          exact ⟨[], t, rest, by simp, hq, by simp, by simp [fetchedRows, hq, fetchedRows_zero]⟩
        | succ m =>
          obtain ⟨pre, u, post, h1, h2, h3, h4⟩ := ih 0 m (by omega)
          refine ⟨t :: pre, u, post, by simp [h1], h2, ?_, ?_⟩
          · simp [List.filter_cons, hq, h3]
          · simp [fetchedRows, hq, h4]
      | succ k =>
        obtain ⟨pre, u, post, h1, h2, h3, h4⟩ := ih k m (by omega)
        refine ⟨t :: pre, u, post, by simp [h1], h2, ?_, ?_⟩
        · simp [List.filter_cons, hq, h3]; omega
        · simp [fetchedRows, hq, h4]
    · simp only [List.filter_cons, hq] at h
      obtain ⟨pre, u, post, h1, h2, h3, h4⟩ := ih k m (by simpa using h)
      refine ⟨t :: pre, u, post, by simp [h1], h2, ?_, ?_⟩
      · simp [List.filter_cons, hq, h3]
      · simp [fetchedRows, hq, h4]

theorem fetchedRows_le (q : TableTuple → Bool) :
    ∀ (rows : List TableTuple) (k : Nat) (m : Option Nat), fetchedRows q k m rows ≤ rows.length := by
  intro rows
  induction rows with
  | nil => intro k m; simp [fetchedRows]
  | cons t rest ih =>
    intro k m
    simp only [fetchedRows, List.length_cons]
    split
    · omega
    · split
      · split
        · have := ih (k - 1) m; omega
        · have := ih 0 (m.map (· - 1)); omega
      · have := ih k m; omega

theorem p_execute_scan (ex : SeqScanExecutor) (node : SeqScanPlanNode) (target out : Table)
    (hnode : ex.m_abstractNode = .seqScan node) (htarget : ex.m_targetTable = some target)
    (hout : ex.m_outputTable = .other out) (htemp : out.isTempTable = true)
    (hoff : (ex.scanEnv node out).offset < 2147483648)
    (hlim : (ex.scanEnv node out).limit < 2147483648) :
    ∃ r, ex.p_execute = .ok r ∧
      r.executor.m_outputTable = .other
        ((emittedRows (qualifies node.predicate) (ex.scanEnv node out).offset.toNat
          (remainingLimit (ex.scanEnv node out).limit 0) target.iterator).foldl
            (emitRow (ex.scanEnv node out)) out) ∧
      r.rowsFetched = fetchedRows (qualifies node.predicate) (ex.scanEnv node out).offset.toNat
          (remainingLimit (ex.scanEnv node out).limit 0) target.iterator ∧
      r.predicateEvals = (if node.predicate.isSome then r.rowsFetched else 0) := by
  obtain ⟨s', h1, h2, h3⟩ := scanLoop_ok (ex.scanEnv node out) htemp hoff hlim target.iterator
    ex.m_tuple 0 0 out 0 (by omega) (fun _ => by omega)
  have hp : (ex.scanEnv node out).predicate = node.predicate := rfl
  have hk : remainingSkip (ex.scanEnv node out).offset 0 = (ex.scanEnv node out).offset.toNat := by
    simp [remainingSkip]
  rw [hp, hk] at h1 h2 h3
  have hle := fetchedRows_le (qualifies node.predicate) target.iterator
    (ex.scanEnv node out).offset.toNat (remainingLimit (ex.scanEnv node out).limit 0)
  have hx : ex.p_execute = .ok
      { executor := { ex with m_tuple := s'.m_tuple, m_outputTable := .other s'.output }
        rowsFetched := target.iterator.length - (target.iterator.drop (fetchedRows
          (qualifies node.predicate) (ex.scanEnv node out).offset.toNat
          (remainingLimit (ex.scanEnv node out).limit 0) target.iterator)).length
        predicateEvals := s'.predicateEvals } := by
    simp only [SeqScanExecutor.p_execute, hnode, hout, htarget, h1]
  refine ⟨_, hx, ?_, ?_, ?_⟩
  · simp [h2]
  · simp only [List.length_drop]; omega
  · simp only [h3, List.length_drop]
    split
    · omega
    · rfl

/-! ## Offset and limit (C1) -/

theorem foldl_emitRow_length (e : ScanEnv) :
    ∀ (rows : List TableTuple) (out : Table),
      (rows.foldl (emitRow e) out).slots.length = out.slots.length + rows.length := by
  intro rows
  induction rows with
  | nil => intro out; simp
  | cons t rest ih =>
    intro out
    rw [List.foldl_cons, ih]
    unfold emitRow
    split <;> simp [Table.insertTempTuple] <;> omega

theorem foldl_emitRow_whole (e : ScanEnv) (h : e.hasInlineProjection = false) :
    ∀ (rows : List TableTuple) (out : Table),
      rows.foldl (emitRow e) out
        = { out with slots := out.slots ++ rows.map (fun t => some t.values) } := by
  intro rows
  induction rows with
  | nil => intro out; simp
  | cons t rest ih =>
    intro out
    rw [List.foldl_cons, ih]
    simp [emitRow, h, Table.insertTempTuple]

theorem scanEnv_limit (ex : SeqScanExecutor) (node : SeqScanPlanNode) (out : Table) (L O : Int)
    (h : node.getInlineLimit = some (L, O)) :
    (ex.scanEnv node out).limit = L ∧ (ex.scanEnv node out).offset = O := by
  simp [SeqScanExecutor.scanEnv, h]

theorem scanEnv_noLimit (ex : SeqScanExecutor) (node : SeqScanPlanNode) (out : Table)
    (h : node.getInlineLimit = none) :
    (ex.scanEnv node out).limit = -1 ∧ (ex.scanEnv node out).offset = -1 := by
  simp [SeqScanExecutor.scanEnv, h]

/-- C1. Offset/limit composition: with a temp output table, offset `O ≥ 0` and limit
`L ≥ 0` or `L = -1` from the inline limit node, and `Q` the rows of the target
that satisfy the predicate in iteration order, `p_execute` emits exactly the
rows of `Q` at positions `[O, O + E)` in that order, where `E` is
`max 0 (min (N - O) L)` for `L ≥ 0` and `max 0 (N - O)` for `L = -1`; without a
projection the emitted rows are appended unchanged, and an offset beyond the
length of `Q` emits nothing. -/
theorem SeqScanExecutor.p_execute_offset_limit (ex : SeqScanExecutor) (node : SeqScanPlanNode)
    (target out : Table) (L O : Int)
    (hnode : ex.m_abstractNode = .seqScan node) (htarget : ex.m_targetTable = some target)
    (hout : ex.m_outputTable = .other out) (htemp : out.isTempTable = true)
    (hlimit : node.getInlineLimit = some (L, O))
    (hO : 0 ≤ O ∧ O < 2147483648) (hL : (0 ≤ L ∧ L < 2147483648) ∨ L = -1) :
    ∃ r out', ex.p_execute = .ok r ∧ r.executor.m_outputTable = .other out' ∧
      out' = (((target.iterator.filter (qualifies node.predicate)).drop O.toNat).take
          (specEmittedCount (target.iterator.filter (qualifies node.predicate)).length O L).toNat
        ).foldl (emitRow (ex.scanEnv node out)) out ∧
      ((out'.slots.length : Int) = out.slots.length +
          specEmittedCount (target.iterator.filter (qualifies node.predicate)).length O L) ∧
      (ex.m_columnExpressions = [] →
        out'.slots = out.slots ++
          (((target.iterator.filter (qualifies node.predicate)).drop O.toNat).take
            (specEmittedCount (target.iterator.filter (qualifies node.predicate)).length O L).toNat
          ).map (fun t => some t.values)) ∧
      ((target.iterator.filter (qualifies node.predicate)).length < O →
        out'.slots = out.slots) := by
  obtain ⟨hl, ho⟩ := scanEnv_limit ex node out L O hlimit
  obtain ⟨r, h1, h2, -, -⟩ := p_execute_scan ex node target out hnode htarget hout htemp
    (by rw [ho]; exact hO.2) (by rw [hl]; omega)
  rw [hl, ho] at h2
  have hem : emittedRows (qualifies node.predicate) O.toNat (remainingLimit L 0) target.iterator
      = ((target.iterator.filter (qualifies node.predicate)).drop O.toNat).take
          (specEmittedCount (target.iterator.filter (qualifies node.predicate)).length O L).toNat := by
    unfold remainingLimit specEmittedCount
    rcases hL with hL | hL
    · have hne : L ≠ -1 := by omega
      simp only [hne, if_false, emittedRows_some, sub_zero]
      rw [List.take_eq_take, List.length_drop]
      omega
    · simp only [hL, if_true, emittedRows_none]
      rw [List.take_of_length_le]
      rw [List.length_drop]
      omega
  rw [hem] at h2
  have hcount : ((((target.iterator.filter (qualifies node.predicate)).drop O.toNat).take
      (specEmittedCount (target.iterator.filter (qualifies node.predicate)).length O L).toNat
      ).length : Int)
      = specEmittedCount (target.iterator.filter (qualifies node.predicate)).length O L := by
    rw [List.length_take, List.length_drop]
    unfold specEmittedCount
    rcases hL with hL | hL
    · have hne : L ≠ -1 := by omega
      simp only [hne, if_false]
      omega
    · simp only [hL, if_true]
      omega
  refine ⟨r, _, h1, h2, rfl, ?_, ?_, ?_⟩
  · rw [foldl_emitRow_length]
    push_cast
    rw [hcount]
  · intro hexp
    have hproj : (ex.scanEnv node out).hasInlineProjection = false := by
      simp [SeqScanExecutor.scanEnv, hexp]
    rw [foldl_emitRow_whole _ hproj]
  · intro hlt
    have h0 : specEmittedCount (target.iterator.filter (qualifies node.predicate)).length O L = 0
        ∨ (target.iterator.filter (qualifies node.predicate)).length ≤ O.toNat := by
      right; omega
    rcases h0 with h0 | h0
    · simp [h0]
    · rw [List.drop_of_length_le h0]; simp

/-! ## The iteration sequence of a table -/

theorem tuplesFrom_address (cc : Nat) :
    ∀ (slots : List (Option (List NValue))) (a : Nat) (t : TableTuple),
      t ∈ tuplesFrom cc a slots → ∃ j : Nat, a ≤ j ∧ t.address = some j := by
  intro slots
  induction slots with
  | nil => intro a t h; simp [tuplesFrom] at h
  | cons s rest ih =>
    intro a t h
    cases s with
    | none =>
      simp only [tuplesFrom] at h
      obtain ⟨j, h1, h2⟩ := ih (a + 1) t h
      exact ⟨j, by omega, h2⟩
    | some v =>
      simp only [tuplesFrom, List.mem_cons] at h
      rcases h with h | h
      · exact ⟨a, le_refl a, by rw [h]⟩
      · obtain ⟨j, h1, h2⟩ := ih (a + 1) t h
        exact ⟨j, by omega, h2⟩

theorem tuplesFrom_nodup (cc : Nat) :
    ∀ (slots : List (Option (List NValue))) (a : Nat), (tuplesFrom cc a slots).Nodup := by
  intro slots
  induction slots with
  | nil => intro a; simp [tuplesFrom]
  | cons s rest ih =>
    intro a
    cases s with
    | none => simpa [tuplesFrom] using ih (a + 1)
    | some v =>
      simp only [tuplesFrom, List.nodup_cons]
      refine ⟨?_, ih (a + 1)⟩
      intro h
      obtain ⟨j, h1, h2⟩ := tuplesFrom_address cc rest (a + 1) _ h
      have h3 : a = j := Option.some.inj h2
      omega

theorem tuplesFrom_values (cc : Nat) :
    ∀ (slots : List (Option (List NValue))) (a : Address),
      (tuplesFrom cc a slots).map (fun t => some t.values) = slots.filter Option.isSome := by
  intro slots
  induction slots with
  | nil => intro a; simp [tuplesFrom]
  | cons s rest ih =>
    intro a
    cases s with
    | none => simp [tuplesFrom, ih]
    | some v => simp [tuplesFrom, ih]

/-! ## Worked example of C1, predicate filtering (C2), aliasing (C3) -/

/-- Witness of C1 on the worked example of the specification: rows 1..5, the
predicate `column0 > 2`, no projection, limit 2 and offset 1; the scan emits
exactly the two rows 4 and 5, in this order. -/
theorem SeqScanExecutor.p_execute_offset_limit_witness :
    (exampleScanNode.getInlineLimit = some (2, 1) ∧
      (setTempOutputTable 1 "T").isTempTable = true) ∧
    ∃ r out', (exampleScan exampleScanNode).p_execute = .ok r ∧
      r.executor.m_outputTable = .other out' ∧ out'.slots = [some [4], some [5]] := by
  refine ⟨⟨rfl, rfl⟩, ?_⟩
  obtain ⟨r, out', h1, h2, -, -, h5, -⟩ :=
    SeqScanExecutor.p_execute_offset_limit (exampleScan exampleScanNode) exampleScanNode
      exampleTarget (setTempOutputTable 1 "T") 2 1 rfl rfl rfl rfl rfl (by decide) (by decide)
  exact ⟨r, out', h1, h2, by rw [h5 rfl]; decide⟩

/-- C2. Predicate filtering: with a temp output table, no inline limit node (limit
and offset keep their default -1) and no inline projection, `p_execute`
appends to the output table exactly the rows of the target on which the
predicate is true, in iteration order: the emitted sequence is the filtered
iteration sequence, a subsequence of it without repetition, a row belongs to
it if and only if it is a row of the target that qualifies, and without a
predicate it is the sequence of all active rows. -/
theorem SeqScanExecutor.p_execute_predicate_filtering (ex : SeqScanExecutor)
    (node : SeqScanPlanNode) (target out : Table)
    (hnode : ex.m_abstractNode = .seqScan node) (htarget : ex.m_targetTable = some target)
    (hout : ex.m_outputTable = .other out) (htemp : out.isTempTable = true)
    (hlimit : node.getInlineLimit = none) (hproj : ex.m_columnExpressions = []) :
    ∃ r, ex.p_execute = .ok r ∧
      r.executor.m_outputTable = .other
        { out with slots := out.slots ++
            (target.iterator.filter (qualifies node.predicate)).map (fun t => some t.values) } ∧
      (target.iterator.filter (qualifies node.predicate)).Sublist target.iterator ∧
      (∀ t, t ∈ target.iterator.filter (qualifies node.predicate) ↔
        t ∈ target.iterator ∧ qualifies node.predicate t = true) ∧
      (target.iterator.filter (qualifies node.predicate)).Nodup ∧
      (node.predicate = none →
        (target.iterator.filter (qualifies node.predicate)).map (fun t => some t.values)
          = target.slots.filter Option.isSome) := by
  obtain ⟨hl, ho⟩ := scanEnv_noLimit ex node out hlimit
  obtain ⟨r, h1, h2, -, -⟩ := p_execute_scan ex node target out hnode htarget hout htemp
    (by rw [ho]; decide) (by rw [hl]; decide)
  have hp : (ex.scanEnv node out).hasInlineProjection = false := by
    simp [SeqScanExecutor.scanEnv, hproj]
  rw [hl, ho, foldl_emitRow_whole _ hp] at h2
  have hem : emittedRows (qualifies node.predicate) (-1 : Int).toNat (remainingLimit (-1) 0)
      target.iterator = target.iterator.filter (qualifies node.predicate) := by
    simp [remainingLimit, emittedRows_none]
  rw [hem] at h2
  refine ⟨r, h1, h2, List.filter_sublist _, ?_, ?_, ?_⟩
  · intro t; exact List.mem_filter
  · exact (tuplesFrom_nodup _ _ _).filter _
  · intro hnone
    have hall : ∀ t, qualifies node.predicate t = true := by intro t; simp [qualifies, hnone]
    rw [List.filter_eq_self.mpr (fun t _ => hall t)]
    exact tuplesFrom_values _ _ _

/-- C3. Alias correctness: for a scan node and a target table, `p_setOutputTable`
succeeds and makes the output table the very object the target table is if
and only if the node has no predicate and no inline plan node; in every other
case the output table is the newly created, empty temp table. -/
theorem SeqScanExecutor.p_setOutputTable_alias (ex : SeqScanExecutor) (node : SeqScanPlanNode)
    (target : Table)
    (hnode : ex.m_abstractNode = .seqScan node) (htarget : ex.m_targetTable = some target) :
    ∃ ex', ex.p_setOutputTable = .ok ex' ∧
      ex'.m_targetTable = some target ∧
      (ex'.m_outputTable = .sameAsTarget ↔
        (node.predicate = none ∧ node.inlinePlanNodes.length = 0)) ∧
      (ex'.outputIsTarget = true ↔
        (node.predicate = none ∧ node.inlinePlanNodes.length = 0)) ∧
      (¬ (node.predicate = none ∧ node.inlinePlanNodes.length = 0) →
        ∃ temp, ex'.m_outputTable = .other temp ∧ temp.isTempTable = true ∧ temp.slots = [] ∧
          temp = setTempOutputTable node.outputColumnCount target.name) := by
  by_cases h : node.predicate = none ∧ node.inlinePlanNodes.length = 0
  · refine ⟨{ ex with m_outputTable := .sameAsTarget }, ?_, htarget, ?_, ?_, ?_⟩
    · simp [SeqScanExecutor.p_setOutputTable, hnode, htarget, h]
    · simp [h]
    · simp [SeqScanExecutor.outputIsTarget, h]
    · intro hn; exact absurd h hn
  · refine ⟨{ ex with
        m_outputTable := .other (setTempOutputTable node.outputColumnCount target.name) },
      ?_, htarget, ?_, ?_, ?_⟩
    · have h' : ¬ (node.predicate.isNone = true ∧ node.inlinePlanNodes.length = 0) := by
        simpa [Option.isNone_iff_eq_none] using h
      simp only [SeqScanExecutor.p_setOutputTable, hnode, htarget, if_neg h']
    · exact ⟨fun hh => by simp at hh, fun hh => absurd hh h⟩
    · exact ⟨fun hh => by simp [SeqScanExecutor.outputIsTarget] at hh, fun hh => absurd hh h⟩
    · intro _; exact ⟨_, rfl, rfl, rfl, rfl⟩

/-- Witness of C2: the scan `column0 > 2` over the rows 1..5 without inline
nodes emits the rows 3, 4, 5. -/
theorem SeqScanExecutor.p_execute_predicate_filtering_witness :
    (exampleFilterNode.getInlineLimit = none ∧
      (exampleScan exampleFilterNode).m_columnExpressions = []) ∧
    ∃ r, (exampleScan exampleFilterNode).p_execute = .ok r ∧
      r.executor.m_outputTable = .other
        { setTempOutputTable 1 "T" with slots := [some [3], some [4], some [5]] } := by
  refine ⟨⟨rfl, rfl⟩, ?_⟩
  obtain ⟨r, h1, h2, -⟩ :=
    SeqScanExecutor.p_execute_predicate_filtering (exampleScan exampleFilterNode)
      exampleFilterNode exampleTarget (setTempOutputTable 1 "T") rfl rfl rfl rfl rfl rfl
  exact ⟨r, h1, by rw [h2]; rfl⟩

/-- Witness of C3: for a scan with a predicate the output table is a new temp
table and not the target. -/
theorem SeqScanExecutor.p_setOutputTable_alias_witness :
    ((exampleFreshScan exampleFilterNode).m_targetTable = some exampleTarget ∧
      ¬ (exampleFilterNode.predicate = none ∧ exampleFilterNode.inlinePlanNodes.length = 0)) ∧
    ∃ ex', (exampleFreshScan exampleFilterNode).p_setOutputTable = .ok ex' ∧
      ex'.m_outputTable = .other (setTempOutputTable 1 "T") ∧ ex'.outputIsTarget = false := by
  have hn : ¬ (exampleFilterNode.predicate = none ∧ exampleFilterNode.inlinePlanNodes.length = 0) := by
    simp [exampleFilterNode]
  refine ⟨⟨rfl, hn⟩, ?_⟩
  obtain ⟨ex', h1, -, -, h4, h5⟩ :=
    SeqScanExecutor.p_setOutputTable_alias (exampleFreshScan exampleFilterNode)
      exampleFilterNode exampleTarget rfl rfl
  obtain ⟨temp, h6, -, -, h9⟩ := h5 hn
  refine ⟨ex', h1, by rw [h6, h9]; rfl, ?_⟩
  cases hb : ex'.outputIsTarget with
  | false => rfl
  | true => exact absurd (h4.mp hb) hn

/-! ## Early stop at the limit (C8) -/

/-- C8. Limit early stop: with a temp output table, offset `O ≥ 0` and limit `L ≥ 0`
or `L = -1` from the inline limit node, `p_execute` fetches no row when
`L = 0`; when `L > 0` and at least `O + L` rows qualify it fetches the rows up
to and including the `(O + L)`-th qualifying row (a row that qualifies and is
preceded by exactly `O + L - 1` qualifying rows) and has then emitted `L`
rows; when `L > 0` and fewer rows qualify, or `L = -1`, it fetches every row.
With a predicate, the predicate is evaluated once per row fetched. -/
theorem SeqScanExecutor.p_execute_limit_early_stop (ex : SeqScanExecutor)
    (node : SeqScanPlanNode) (target out : Table) (L O : Int)
    (hnode : ex.m_abstractNode = .seqScan node) (htarget : ex.m_targetTable = some target)
    (hout : ex.m_outputTable = .other out) (htemp : out.isTempTable = true)
    (hlimit : node.getInlineLimit = some (L, O))
    (hO : 0 ≤ O ∧ O < 2147483648) (hL : (0 ≤ L ∧ L < 2147483648) ∨ L = -1) :
    ∃ r out', ex.p_execute = .ok r ∧ r.executor.m_outputTable = .other out' ∧
      (node.predicate.isSome = true → r.predicateEvals = r.rowsFetched) ∧
      (L = 0 → r.rowsFetched = 0) ∧
      (0 < L → O + L ≤ (target.iterator.filter (qualifies node.predicate)).length →
        (∃ pre t post, target.iterator = pre ++ t :: post ∧
          qualifies node.predicate t = true ∧
          ((pre.filter (qualifies node.predicate)).length : Int) + 1 = O + L ∧
          r.rowsFetched = pre.length + 1) ∧
        (out'.slots.length : Int) = out.slots.length + L) ∧
      (0 < L → ((target.iterator.filter (qualifies node.predicate)).length : Int) < O + L →
        r.rowsFetched = target.iterator.length) ∧
      (L = -1 → r.rowsFetched = target.iterator.length) := by
  obtain ⟨hl, ho⟩ := scanEnv_limit ex node out L O hlimit
  obtain ⟨r, h1, h2, h3, h4⟩ := p_execute_scan ex node target out hnode htarget hout htemp
    (by rw [ho]; exact hO.2) (by rw [hl]; omega)
  rw [hl, ho] at h2 h3
  refine ⟨r, _, h1, h2, ?_, ?_, ?_, ?_, ?_⟩
  · intro hp; rw [h4, if_pos hp]
  · intro h0
    rw [h3, h0]
    simp [remainingLimit, fetchedRows_zero]
  · intro hpos hlen
    have hne : L ≠ -1 := by omega
    have hm : remainingLimit L 0 = some ((L.toNat - 1) + 1) := by
      simp only [remainingLimit, hne, if_false, sub_zero]
      congr 1
      omega
    constructor
    · obtain ⟨pre, t, post, e1, e2, e3, e4⟩ := fetchedRows_stop (qualifies node.predicate)
        target.iterator O.toNat (L.toNat - 1) (by omega)
      refine ⟨pre, t, post, e1, e2, ?_, ?_⟩
      · omega
      · rw [h3, hm, e4]
    · rw [foldl_emitRow_length, hm, emittedRows_some, List.length_take, List.length_drop]
      omega
  · intro hpos hlen
    have hne : L ≠ -1 := by omega
    have hm : remainingLimit L 0 = some ((L.toNat - 1) + 1) := by
      simp only [remainingLimit, hne, if_false, sub_zero]
      congr 1
      omega
    rw [h3, hm]
    exact fetchedRows_short _ _ _ _ (by omega)
  · intro hneg
    rw [h3, hneg]
    simp [remainingLimit, fetchedRows_none]

/-- Witness of C8: over the rows 1..5 with the predicate `column0 > 2`, limit 1
and offset 1, the scan stops after the fourth row. -/
theorem SeqScanExecutor.p_execute_limit_early_stop_witness :
    (exampleEarlyNode.getInlineLimit = some (1, 1) ∧
      (setTempOutputTable 1 "T").isTempTable = true) ∧
    ∃ r, (exampleScan exampleEarlyNode).p_execute = .ok r ∧ r.rowsFetched = 4 ∧
      r.predicateEvals = 4 := by
  refine ⟨⟨rfl, rfl⟩, ?_⟩
  obtain ⟨r, out', h1, -, h3, -⟩ :=
    SeqScanExecutor.p_execute_limit_early_stop (exampleScan exampleEarlyNode) exampleEarlyNode
      exampleTarget (setTempOutputTable 1 "T") 1 1 rfl rfl rfl rfl rfl (by decide) (by decide)
  have h6 : (match (exampleScan exampleEarlyNode).p_execute with
      | .ok r => r.rowsFetched
      | .error _ => 0) = 4 := by decide
  rw [h1] at h6
  exact ⟨r, h1, h6, by rw [h3 rfl]; exact h6⟩

/-! ## The two projection paths (C6) -/

theorem copyColumnsOnly_eq_eval (cols : List Nat) (t : TableTuple) :
    ∀ (n : Nat) (temp : List NValue),
      copyColumnsOnly cols t n temp
        = evalColumnExpressions (cols.map AbstractExpression.tupleValue) t n temp := by
  intro n
  induction n with
  | zero => intro temp; rfl
  | succ n ih =>
    intro temp
    simp only [copyColumnsOnly, evalColumnExpressions]
    rw [ih]
    congr 2
    rw [show (AbstractExpression.tupleValue 0) = AbstractExpression.tupleValue (0 : Nat) from rfl,
      List.getD_map]
    rfl

theorem scanLoop_congr (e1 e2 : ScanEnv) (hp : e1.predicate = e2.predicate)
    (hl : e1.limit = e2.limit) (ho : e1.offset = e2.offset)
    (hc : e1.output_temp_table = e2.output_temp_table) (he : emitRow e1 = emitRow e2) :
    ∀ (rows : List TableTuple) (s : ScanLocals), scanLoop e1 rows s = scanLoop e2 rows s := by
  intro rows
  induction rows with
  | nil => intro s; rfl
  | cons t rest ih =>
    intro s
    simp only [scanLoop, hp, hl, ho, hc, he, ih]

theorem scanLoop_succeeds (e : ScanEnv) (hcast : e.output_temp_table = true) :
    ∀ (rows : List TableTuple) (s : ScanLocals), ∃ x, scanLoop e rows s = .ok x := by
  intro rows
  induction rows with
  | nil => intro s; exact ⟨_, rfl⟩
  | cons t rest ih =>
    intro s
    simp only [scanLoop, hcast, if_true]
    split
    · split
      · split
        · exact ih _
        · exact ih _
      · exact ih _
    · exact ⟨_, rfl⟩

theorem indexesIfAllTupleValues_map (cols : List Nat) :
    indexesIfAllTupleValues (cols.map AbstractExpression.tupleValue) = cols := by
  unfold indexesIfAllTupleValues
  have h1 : (cols.map AbstractExpression.tupleValue).all (fun e => e.columnId?.isSome) = true := by
    simp [List.all_eq_true, AbstractExpression.columnId?]
  rw [if_pos h1]
  induction cols with
  | nil => rfl
  | cons c rest ih => simp [AbstractExpression.columnId?, List.filterMap_cons, ih]

theorem emitRow_columnsOnly (ex : SeqScanExecutor) (node : SeqScanPlanNode) (out : Table)
    (cols : List Nat) (hexprs : ex.m_columnExpressions = cols.map AbstractExpression.tupleValue) :
    emitRow (({ ex with m_columnsOnly := cols } : SeqScanExecutor).scanEnv node out)
      = emitRow (({ ex with m_columnsOnly := [] } : SeqScanExecutor).scanEnv node out) := by
  funext output t
  by_cases hc : cols = []
  · subst hc; rfl
  · simp only [emitRow, SeqScanExecutor.scanEnv, hexprs]
    have h1 : (!(cols.isEmpty)) = true := by
      cases cols with
      | nil => exact absurd rfl hc
      | cons _ _ => rfl
    simp only [h1, List.isEmpty_nil, Bool.not_true, if_true, List.length_map,
      copyColumnsOnly_eq_eval]
    rfl

theorem p_execute_of_scanLoop (ex : SeqScanExecutor) (node : SeqScanPlanNode)
    (target out : Table) (x : List TableTuple × ScanLocals)
    (hnode : ex.m_abstractNode = .seqScan node) (htarget : ex.m_targetTable = some target)
    (hout : ex.m_outputTable = .other out)
    (h : scanLoop (ex.scanEnv node out) target.iterator
      { m_tuple := ex.m_tuple, tuple_ctr := 0, tuple_skipped := 0, output := out,
        predicateEvals := 0 } = .ok x) :
    ex.p_execute = .ok
      { executor := { ex with m_tuple := x.2.m_tuple, m_outputTable := .other x.2.output }
        rowsFetched := target.iterator.length - x.1.length
        predicateEvals := x.2.predicateEvals } := by
  simp only [SeqScanExecutor.p_execute, hnode, hout, htarget, h]

/-- C6. Projection equivalence: when every projection expression is a bare
reference to an input column, so that `m_columnsOnly` lists these columns,
the column-subset path of `p_execute` (`m_columnsOnly` as `p_init` computes
it) and the general path (the same expressions evaluated, `m_columnsOnly`
empty) both succeed on a temp output table and leave the same output
table. -/
theorem SeqScanExecutor.p_execute_projection_equivalence (ex : SeqScanExecutor)
    (node : SeqScanPlanNode) (target out : Table) (cols : List Nat)
    (hnode : ex.m_abstractNode = .seqScan node) (htarget : ex.m_targetTable = some target)
    (hout : ex.m_outputTable = .other out) (htemp : out.isTempTable = true)
    (hcols : cols ≠ []) (hexprs : ex.m_columnExpressions = cols.map AbstractExpression.tupleValue) :
    indexesIfAllTupleValues ex.m_columnExpressions = cols ∧
    (({ ex with m_columnsOnly := cols } : SeqScanExecutor).scanEnv node out).hasInlineProjection
      = true ∧
    (({ ex with m_columnsOnly := cols } : SeqScanExecutor).scanEnv node out).projectsColumnsOnly
      = true ∧
    (({ ex with m_columnsOnly := [] } : SeqScanExecutor).scanEnv node out).hasInlineProjection
      = true ∧
    (({ ex with m_columnsOnly := [] } : SeqScanExecutor).scanEnv node out).projectsColumnsOnly
      = false ∧
    ∃ rOnly rGeneral,
      ({ ex with m_columnsOnly := cols } : SeqScanExecutor).p_execute = .ok rOnly ∧
      ({ ex with m_columnsOnly := [] } : SeqScanExecutor).p_execute = .ok rGeneral ∧
      rOnly.executor.m_outputTable = rGeneral.executor.m_outputTable ∧
      rOnly.rowsFetched = rGeneral.rowsFetched := by
  refine ⟨by rw [hexprs]; exact indexesIfAllTupleValues_map cols, ?_, ?_, ?_, rfl, ?_⟩
  · simp [SeqScanExecutor.scanEnv, hexprs, hcols]
  · simp [SeqScanExecutor.scanEnv, hcols]
  · simp [SeqScanExecutor.scanEnv, hexprs, hcols]
  have hloop := scanLoop_congr
    (({ ex with m_columnsOnly := cols } : SeqScanExecutor).scanEnv node out)
    (({ ex with m_columnsOnly := [] } : SeqScanExecutor).scanEnv node out) rfl rfl rfl rfl
    (emitRow_columnsOnly ex node out cols hexprs) target.iterator
    { m_tuple := ex.m_tuple, tuple_ctr := 0, tuple_skipped := 0, output := out,
      predicateEvals := 0 }
  obtain ⟨x, hx⟩ := scanLoop_succeeds
    (({ ex with m_columnsOnly := [] } : SeqScanExecutor).scanEnv node out) htemp target.iterator
    { m_tuple := ex.m_tuple, tuple_ctr := 0, tuple_skipped := 0, output := out,
      predicateEvals := 0 }
  rw [hx] at hloop
  exact ⟨_, _, p_execute_of_scanLoop _ node target out x hnode htarget hout hloop,
    p_execute_of_scanLoop _ node target out x hnode htarget hout hx, rfl, rfl⟩

/-- Witness of C6: projecting a two-column table to its columns 1 and 0, both
paths produce the rows (40, 4) and (50, 5). -/
theorem SeqScanExecutor.p_execute_projection_equivalence_witness :
    (exampleProjectionScan.m_columnExpressions = [1, 0].map AbstractExpression.tupleValue ∧
      (setTempOutputTable 2 "T").isTempTable = true) ∧
    ∃ rOnly rGeneral,
      ({ exampleProjectionScan with m_columnsOnly := [1, 0] } : SeqScanExecutor).p_execute
        = .ok rOnly ∧
      ({ exampleProjectionScan with m_columnsOnly := [] } : SeqScanExecutor).p_execute
        = .ok rGeneral ∧
      rOnly.executor.m_outputTable = rGeneral.executor.m_outputTable ∧
      rGeneral.executor.m_outputTable = .other
        { setTempOutputTable 2 "T" with slots := [some [40, 4], some [50, 5]],
                                        tempTuple := [50, 5] } := by
  refine ⟨⟨rfl, rfl⟩, ?_⟩
  obtain ⟨-, -, -, -, -, rOnly, rGeneral, h1, h2, h3, -⟩ :=
    SeqScanExecutor.p_execute_projection_equivalence exampleProjectionScan
      exampleProjectionNode exampleTarget2 (setTempOutputTable 2 "T") [1, 0] rfl rfl rfl rfl
      (by decide) rfl
  have h4 : ({ exampleProjectionScan with m_columnsOnly := [] } : SeqScanExecutor).p_execute
      = .ok { executor := { exampleProjectionScan with
                m_tuple := { sizeInValues := 2, address := some 4, values := [5, 50] },
                m_outputTable := .other
                  { setTempOutputTable 2 "T" with slots := [some [40, 4], some [50, 5]],
                                                  tempTuple := [50, 5] }
                m_columnsOnly := [] },
              rowsFetched := 5, predicateEvals := 5 } := rfl
  rw [h4] at h2
  have h5 := Except.ok.inj h2
  exact ⟨rOnly, rGeneral, h1, by rw [h4]; exact h2, h3, by rw [← h5]⟩

/-! ## General projection (C7) -/

theorem foldl_set_getElem? (f : Nat → NValue) :
    ∀ (order : List Nat) (temp : List NValue) (k : Nat),
      (order.foldl (fun tmp c => setNValue tmp c (f c)) temp)[k]?
        = if k ∈ order then (temp[k]?).map (fun _ => f k) else temp[k]? := by
  intro order
  induction order with
  | nil => intro temp k; simp
  | cons c rest ih =>
    intro temp k
    rw [List.foldl_cons, ih]
    simp only [setNValue, List.getElem?_set, List.mem_cons]
    by_cases hk : k ∈ rest
    · simp only [hk, or_true, if_true]
      by_cases hc : c = k
      · subst hc
        by_cases hlt : c < temp.length
        · simp [hlt]
        · simp [hlt, List.getElem?_eq_none (Nat.le_of_not_lt hlt)]
      · simp [hc]
    · simp only [hk, or_false, if_false]
      by_cases hc : c = k
      · subst hc
        by_cases hlt : c < temp.length
        · simp [hlt]
        · simp [hlt, List.getElem?_eq_none (Nat.le_of_not_lt hlt)]
      · have hc' : ¬ k = c := fun h => hc h.symm
        simp [hc, hc']

theorem evalColumnExpressions_eq_writeColumns (exprs : List AbstractExpression) (t : TableTuple) :
    ∀ (n : Nat) (temp : List NValue),
      evalColumnExpressions exprs t n temp = writeColumns exprs t (List.range n).reverse temp := by
  intro n
  induction n with
  | zero => intro temp; rfl
  | succ n ih =>
    intro temp
    simp only [evalColumnExpressions, ih, writeColumns, List.range_succ, List.reverse_append,
      List.reverse_cons, List.reverse_nil, List.nil_append, List.singleton_append,
      List.foldl_cons]

theorem writeColumns_getElem? (exprs : List AbstractExpression) (t : TableTuple)
    (order : List Nat) (temp : List NValue) (k : Nat) :
    (writeColumns exprs t order temp)[k]?
      = if k ∈ order then (temp[k]?).map (fun _ => (exprs.getD k (.tupleValue 0)).eval t)
        else temp[k]? :=
  foldl_set_getElem? (fun c => (exprs.getD c (.tupleValue 0)).eval t) order temp k

theorem writeColumns_perm (exprs : List AbstractExpression) (t : TableTuple)
    (order1 order2 : List Nat) (h : order1.Perm order2) (temp : List NValue) :
    writeColumns exprs t order1 temp = writeColumns exprs t order2 temp := by
  apply List.ext_getElem?
  intro k
  rw [writeColumns_getElem?, writeColumns_getElem?]
  simp only [h.mem_iff]

theorem evalColumnExpressions_closed (exprs : List AbstractExpression) (t : TableTuple)
    (temp : List NValue) (h : exprs.length ≤ temp.length) :
    evalColumnExpressions exprs t exprs.length temp
      = exprs.map (fun e => e.eval t) ++ temp.drop exprs.length := by
  rw [evalColumnExpressions_eq_writeColumns]
  apply List.ext_getElem?
  intro k
  rw [writeColumns_getElem?]
  simp only [List.mem_reverse, List.mem_range]
  by_cases hk : k < exprs.length
  · have hk2 : k < temp.length := by omega
    rw [if_pos hk, List.getElem?_append_left (by simpa using hk)]
    simp [hk, hk2, List.getD_eq_getElem?_getD]
  · rw [if_neg hk, List.getElem?_append_right (by simpa using hk)]
    simp only [List.length_map, List.getElem?_drop]
    congr 1
    omega

theorem indexesIfAllTupleValues_nonempty (es : List AbstractExpression)
    (h : indexesIfAllTupleValues es ≠ []) :
    es = (indexesIfAllTupleValues es).map AbstractExpression.tupleValue := by
  unfold indexesIfAllTupleValues at h ⊢
  by_cases hall : es.all (fun e => e.columnId?.isSome) = true
  · rw [if_pos hall]
    clear h
    induction es with
    | nil => rfl
    | cons e rest ih =>
      simp only [List.all_cons, Bool.and_eq_true] at hall
      cases e with
      | tupleValue c =>
        simp only [List.filterMap_cons, AbstractExpression.columnId?, List.map_cons]
        rw [← ih hall.2]
      | other f => simp [AbstractExpression.columnId?] at hall
  · rw [if_neg hall] at h
    exact absurd rfl h

theorem emitRow_projection (ex : SeqScanExecutor) (node : SeqScanPlanNode) (out0 : Table)
    (hexprs : ex.m_columnExpressions ≠ [])
    (hcols : ex.m_columnsOnly = indexesIfAllTupleValues ex.m_columnExpressions)
    (output : Table) (t : TableTuple)
    (hwidth : ex.m_columnExpressions.length ≤ output.tempTuple.length) :
    emitRow (ex.scanEnv node out0) output t
      = { output with
          tempTuple := ex.m_columnExpressions.map (fun e => e.eval t)
            ++ output.tempTuple.drop ex.m_columnExpressions.length
          slots := output.slots ++ [some (ex.m_columnExpressions.map (fun e => e.eval t)
            ++ output.tempTuple.drop ex.m_columnExpressions.length)] } := by
  have h1 : (!(ex.m_columnExpressions.isEmpty)) = true := by
    cases hx : ex.m_columnExpressions with
    | nil => exact absurd hx hexprs
    | cons _ _ => rfl
  by_cases hc : ex.m_columnsOnly = []
  · simp only [emitRow, SeqScanExecutor.scanEnv, h1, hc, List.isEmpty_nil, Bool.not_true,
      if_true, Table.insertTempTuple]
    simp [evalColumnExpressions_closed _ _ _ hwidth]
  · have h2 : (!(ex.m_columnsOnly.isEmpty)) = true := by
      cases hx : ex.m_columnsOnly with
      | nil => exact absurd hx hc
      | cons _ _ => rfl
    have h3 := indexesIfAllTupleValues_nonempty ex.m_columnExpressions (by rw [← hcols]; exact hc)
    rw [← hcols] at h3
    have h4 : ex.m_columnsOnly.length = ex.m_columnExpressions.length := by
      conv_rhs => rw [h3]
      simp
    simp only [emitRow, SeqScanExecutor.scanEnv, h1, h2, if_true, Table.insertTempTuple]
    rw [copyColumnsOnly_eq_eval, ← h3, h4, evalColumnExpressions_closed _ _ _ hwidth]

theorem foldl_emitRow_projection (ex : SeqScanExecutor) (node : SeqScanPlanNode) (out0 : Table)
    (hexprs : ex.m_columnExpressions ≠ [])
    (hcols : ex.m_columnsOnly = indexesIfAllTupleValues ex.m_columnExpressions) :
    ∀ (rows : List TableTuple) (output : Table),
      ex.m_columnExpressions.length ≤ output.tempTuple.length →
      (rows.foldl (emitRow (ex.scanEnv node out0)) output).slots
        = output.slots ++ rows.map (fun t => some (ex.m_columnExpressions.map (fun e => e.eval t)
            ++ output.tempTuple.drop ex.m_columnExpressions.length)) := by
  intro rows
  induction rows with
  | nil => intro output _; simp
  | cons t rest ih =>
    intro output hwidth
    rw [List.foldl_cons, emitRow_projection ex node out0 hexprs hcols output t hwidth, ih]
    · simp
    · simp

theorem emittedRows_eq_source (q : TableTuple → Bool) (rows : List TableTuple) (O L : Int) :
    emittedRows q O.toNat (remainingLimit L 0) rows = emittedSourceRows (rows.filter q) O L := by
  unfold remainingLimit emittedSourceRows
  by_cases h : L = -1
  · simp only [h, if_true, emittedRows_none]
  · simp only [h, if_false, emittedRows_some, sub_zero]

theorem emittedSourceRows_getElem? (Q : List TableTuple) (O L : Int) (j : Nat) (t : TableTuple)
    (h : (emittedSourceRows Q O L)[j]? = some t) : Q[O.toNat + j]? = some t := by
  unfold emittedSourceRows at h
  split at h
  · simpa [List.getElem?_drop] using h
  · rw [List.getElem?_take] at h
    split at h
    · simpa [List.getElem?_drop] using h
    · exact absurd h (by simp)

/-- C7. General inline projection: with a non-empty projection list of `n`
expressions, `m_columnsOnly` as `p_init` computes it and an output schema of
at least `n` columns, `p_execute` appends one row per emitted source row: the
`j`-th appended row belongs to the `j`-th emitted source row, which is the
qualifying row at position `offset + j` (at position `j` when the offset is
negative, nothing being skipped then), and holds in column `i < n`
expression `i` evaluated on that source row, the columns from `n` on being
those of the scratch tuple at entry; so no appended row depends on an earlier
source row.  Writing the columns in any order, each once, gives the same
tuple as the right-to-left loop. -/
theorem SeqScanExecutor.p_execute_general_projection (ex : SeqScanExecutor)
    (node : SeqScanPlanNode) (target out : Table) (L O : Int)
    (hnode : ex.m_abstractNode = .seqScan node) (htarget : ex.m_targetTable = some target)
    (hout : ex.m_outputTable = .other out) (htemp : out.isTempTable = true)
    (hL : (ex.scanEnv node out).limit = L) (hO : (ex.scanEnv node out).offset = O)
    (hL32 : L < 2147483648) (hO32 : O < 2147483648)
    (hexprs : ex.m_columnExpressions ≠ [])
    (hcols : ex.m_columnsOnly = indexesIfAllTupleValues ex.m_columnExpressions)
    (hwidth : ex.m_columnExpressions.length ≤ out.tempTuple.length) :
    ∃ r out', ex.p_execute = .ok r ∧ r.executor.m_outputTable = .other out' ∧
      out'.slots = out.slots ++
        (emittedSourceRows (target.iterator.filter (qualifies node.predicate)) O L).map
          (fun t => some (ex.m_columnExpressions.map (fun e => e.eval t)
            ++ out.tempTuple.drop ex.m_columnExpressions.length)) ∧
      (∀ (j : Nat) (t : TableTuple),
        (emittedSourceRows (target.iterator.filter (qualifies node.predicate)) O L)[j]? = some t →
        (target.iterator.filter (qualifies node.predicate))[O.toNat + j]? = some t ∧
        ∃ row, out'.slots[out.slots.length + j]? = some (some row) ∧
          ∀ (i : Nat) (e : AbstractExpression), ex.m_columnExpressions[i]? = some e →
            row[i]? = some (e.eval t)) ∧
      (∀ (t : TableTuple) (temp_tuple : List NValue) (order : List Nat),
        order.Perm (List.range ex.m_columnExpressions.length) →
        writeColumns ex.m_columnExpressions t order temp_tuple
          = evalColumnExpressions ex.m_columnExpressions t ex.m_columnExpressions.length
              temp_tuple) := by
  obtain ⟨r, h1, h2, -, -⟩ := p_execute_scan ex node target out hnode htarget hout htemp
    (by rw [hO]; exact hO32) (by rw [hL]; exact hL32)
  rw [hL, hO, emittedRows_eq_source] at h2
  have hslots := foldl_emitRow_projection ex node out hexprs hcols
    (emittedSourceRows (target.iterator.filter (qualifies node.predicate)) O L) out hwidth
  refine ⟨r, _, h1, h2, hslots, ?_, ?_⟩
  · intro j t hj
    refine ⟨emittedSourceRows_getElem? _ O L j t hj, ?_⟩
    refine ⟨ex.m_columnExpressions.map (fun e => e.eval t)
      ++ out.tempTuple.drop ex.m_columnExpressions.length, ?_, ?_⟩
    · rw [hslots, List.getElem?_append_right (by omega)]
      simp [hj]
    · intro i e hi
      have hlt : i < ex.m_columnExpressions.length := by
        rcases Nat.lt_or_ge i ex.m_columnExpressions.length with h | h
        · exact h
        · rw [List.getElem?_eq_none h] at hi; exact absurd hi (by simp)
      rw [List.getElem?_append_left (by simpa using hlt)]
      simp [hi]
  · intro t temp_tuple order hperm
    rw [evalColumnExpressions_eq_writeColumns]
    exact writeColumns_perm _ _ _ _ (hperm.trans (List.reverse_perm _).symm) _

/-- Witness of C7: projecting the qualifying rows 4 and 5 to ten times column 0
and column 0 gives the rows (40, 4) and (50, 5). -/
theorem SeqScanExecutor.p_execute_general_projection_witness :
    (exampleGeneralScan.m_columnExpressions ≠ [] ∧
      exampleGeneralScan.m_columnsOnly
        = indexesIfAllTupleValues exampleGeneralScan.m_columnExpressions ∧
      exampleGeneralScan.m_columnExpressions.length ≤ (setTempOutputTable 2 "T").tempTuple.length) ∧
    ∃ r out', exampleGeneralScan.p_execute = .ok r ∧
      r.executor.m_outputTable = .other out' ∧ out'.slots = [some [40, 4], some [50, 5]] := by
  have h1 : exampleGeneralScan.m_columnExpressions ≠ [] := by simp [exampleGeneralScan]
  have h2 : exampleGeneralScan.m_columnExpressions.length
      ≤ (setTempOutputTable 2 "T").tempTuple.length := by decide
  refine ⟨⟨h1, rfl, h2⟩, ?_⟩
  obtain ⟨r, out', e1, e2, e3, -⟩ :=
    SeqScanExecutor.p_execute_general_projection exampleGeneralScan exampleGeneralNode
      exampleTarget (setTempOutputTable 2 "T") 2 1 rfl rfl rfl rfl rfl rfl
      (by decide) (by decide) h1 rfl h2
  exact ⟨r, out', e1, e2, by rw [e3]; decide⟩

/-! ## Truncate (C4) -/

/-- C4. Truncate count: in truncate mode `p_execute` reads the active tuple count
of the target table, then calls `deleteAllTuples(true)`, then passes the
count read to `storeModifiedTupleCount`; afterwards the target table has no
active row. -/
theorem DeleteExecutor.p_execute_truncate_count (ex : DeleteExecutor) (target : Table)
    (htarget : ex.m_targetTable = some target) (htruncate : ex.m_truncate = true) :
    ∃ ex' target', ex.p_execute = .ok ex' ∧ ex'.m_targetTable = some target' ∧
      ex'.calls = ex.calls ++ [.activeTupleCount, .deleteAllTuples true,
        .storeModifiedTupleCount target.activeTupleCount] ∧
      target' = target.deleteAllTuples ∧
      target'.activeTupleCount = 0 ∧ target'.iterator = [] := by
  have hx : ex.p_execute = .ok
      { ex with
        m_targetTable := some target.deleteAllTuples
        calls := ex.calls ++ [.activeTupleCount, .deleteAllTuples true,
          .storeModifiedTupleCount target.activeTupleCount] } := by
    simp [DeleteExecutor.p_execute, htarget, htruncate]
  exact ⟨_, target.deleteAllTuples, hx, rfl, rfl, rfl, rfl, rfl⟩

/-- Witness of C4: truncating a table of 7 active rows reports 7 and leaves no
active row. -/
theorem DeleteExecutor.p_execute_truncate_count_witness :
    (exampleTruncate.m_targetTable = some exampleSeven ∧ exampleTruncate.m_truncate = true ∧
      exampleSeven.activeTupleCount = 7) ∧
    ∃ ex' target', exampleTruncate.p_execute = .ok ex' ∧ ex'.m_targetTable = some target' ∧
      ex'.calls = [.activeTupleCount, .deleteAllTuples true, .storeModifiedTupleCount 7] ∧
      target'.activeTupleCount = 0 := by
  refine ⟨⟨rfl, rfl, by decide⟩, ?_⟩
  obtain ⟨ex', target', h1, h2, h3, -, h5, -⟩ :=
    DeleteExecutor.p_execute_truncate_count exampleTruncate exampleSeven rfl rfl
  exact ⟨ex', target', h1, h2, by rw [h3]; decide, h5⟩

/-! ## Targeted delete (C5) -/

theorem deleteCalls_move (m_targetTuple : TableTuple) (a : Address) :
    ∀ (rows : List TableTuple),
      deleteCalls (m_targetTuple.move a) rows = deleteCalls m_targetTuple rows := by
  intro rows
  induction rows with
  | nil => rfl
  | cons t rest ih =>
    simp only [deleteCalls, ih]
    rfl

theorem deleteLoop_spec :
    ∀ (rows : List TableTuple) (s : DeleteLocals),
      (deleteLoop rows s).target = { s.target with
        slots := deleteSlots s.target.slots (rows.map TableTuple.getSelfAddressColumn) } ∧
      (deleteLoop rows s).modifiedTuples = s.modifiedTuples + rows.length ∧
      (deleteLoop rows s).calls = s.calls ++ deleteCalls s.m_targetTuple rows := by
  intro rows
  induction rows with
  | nil => intro s; simp [deleteLoop, deleteSlots, deleteCalls]
  | cons t rest ih =>
    intro s
    simp only [deleteLoop]
    obtain ⟨h1, h2, h3⟩ := ih
      { m_inputTuple := t
        m_targetTuple := s.m_targetTuple.move t.getSelfAddressColumn
        target := s.target.deleteTuple (s.m_targetTuple.move t.getSelfAddressColumn)
        modifiedTuples := s.modifiedTuples + 1
        calls := s.calls ++ [.next true,
          .deleteTuple (s.m_targetTuple.move t.getSelfAddressColumn) true] }
    refine ⟨?_, ?_, ?_⟩
    · rw [h1]
      simp [Table.deleteTuple, TableTuple.move, deleteSlots]
    · rw [h2]
      simp only [List.length_cons]
      push_cast
      ring
    · rw [h3, deleteCalls_move]
      simp [deleteCalls]

theorem set_none_count (a : Nat) :
    ∀ (slots : List (Option (List NValue))) , (∃ v, slots[a]? = some (some v)) →
      ((slots.set a none).filter Option.isSome).length + 1
        = (slots.filter Option.isSome).length := by
  induction a with
  | zero =>
    intro slots h
    cases slots with
    | nil => simp at h
    | cons s rest =>
      obtain ⟨v, hv⟩ := h
      simp at hv
      subst hv
      simp
  | succ a ih =>
    intro slots h
    cases slots with
    | nil => simp at h
    | cons s rest =>
      have := ih rest (by simpa using h)
      cases s with
      | none => simpa using this
      | some v => simp; omega

theorem deleteSlots_count :
    ∀ (addresses : List Nat) (slots : List (Option (List NValue))), addresses.Nodup →
      (∀ a ∈ addresses, ∃ v, slots[a]? = some (some v)) →
      ((deleteSlots slots addresses).filter Option.isSome).length + addresses.length
        = (slots.filter Option.isSome).length := by
  intro addresses
  induction addresses with
  | nil => intro slots _ _; simp [deleteSlots]
  | cons a rest ih =>
    intro slots hnd hact
    rw [List.nodup_cons] at hnd
    have h1 := set_none_count a slots (hact a (by simp))
    have h2 := ih (slots.set a none) hnd.2 (by
      intro b hb
      have hne : a ≠ b := fun h => hnd.1 (h ▸ hb)
      obtain ⟨v, hv⟩ := hact b (by simp [hb])
      exact ⟨v, by rw [List.getElem?_set_ne hne]; exact hv⟩)
    simp only [deleteSlots, List.foldl_cons, List.length_cons] at h2 ⊢
    omega

theorem tuplesFrom_filter_ge (cc : Nat) (slots : List (Option (List NValue))) (a b : Nat)
    (h : b < a) :
    (tuplesFrom cc a slots).filter (fun t => decide (t.address ≠ some b)) = tuplesFrom cc a slots := by
  rw [List.filter_eq_self]
  intro t ht
  obtain ⟨j, h1, h2⟩ := tuplesFrom_address cc slots a t ht
  simp only [h2, decide_eq_true_eq]
  intro h3
  have h4 : j = b := Option.some.inj h3
  omega

theorem tuplesFrom_set_none (cc : Nat) :
    ∀ (slots : List (Option (List NValue))) (i a : Nat),
      tuplesFrom cc i (slots.set a none)
        = (tuplesFrom cc i slots).filter (fun t => decide (t.address ≠ some (i + a))) := by
  intro slots
  induction slots with
  | nil => intro i a; simp [tuplesFrom]
  | cons s rest ih =>
    intro i a
    cases a with
    | zero =>
      cases s with
      | none =>
        simp only [List.set_cons_zero, tuplesFrom, Nat.add_zero]
        exact (tuplesFrom_filter_ge cc rest (i + 1) i (by omega)).symm
      | some v =>
        simp only [List.set_cons_zero, tuplesFrom, Nat.add_zero, List.filter_cons]
        simp only [ne_eq, not_true_eq_false, decide_False, Bool.false_eq_true, if_false]
        exact (tuplesFrom_filter_ge cc rest (i + 1) i (by omega)).symm
    | succ a =>
      have hi : i + (a + 1) = i + 1 + a := by omega
      cases s with
      | none =>
        simp only [List.set_cons_succ, tuplesFrom, ih, hi]
      | some v =>
        simp only [List.set_cons_succ, tuplesFrom, ih, hi, List.filter_cons]
        have : (some i : Option Address) ≠ some (i + 1 + a) := by
          intro h
          have h3 : i = i + 1 + a := Option.some.inj h
          omega
        simp [this]

theorem tuplesFrom_deleteSlots (cc : Nat) :
    ∀ (addresses : List Nat) (slots : List (Option (List NValue))),
      tuplesFrom cc 0 (deleteSlots slots addresses)
        = (tuplesFrom cc 0 slots).filter
            (fun t => decide (∀ a ∈ addresses, t.address ≠ some a)) := by
  intro addresses
  induction addresses with
  | nil => intro slots; simp [deleteSlots]
  | cons a rest ih =>
    intro slots
    simp only [deleteSlots, List.foldl_cons] at ih ⊢
    rw [ih, tuplesFrom_set_none, List.filter_filter]
    congr 1
    funext t
    simp [Bool.and_comm]

theorem tuplesFrom_length (cc : Nat) :
    ∀ (slots : List (Option (List NValue))) (a : Nat),
      (tuplesFrom cc a slots).length = (slots.filter Option.isSome).length := by
  intro slots a
  rw [← tuplesFrom_values cc slots a, List.length_map]

theorem DeleteExecutor.p_execute_loop_calls (ex : DeleteExecutor) (target input : Table)
    (htarget : ex.m_targetTable = some target) (htruncate : ex.m_truncate = false)
    (hinput : ex.m_inputTable = some input)
    (hin : ex.m_inputTuple.sizeInValues = input.columnCount)
    (htg : ex.m_targetTuple.sizeInValues = target.columnCount) :
    ∃ ex', ex.p_execute = .ok ex' ∧
      ex'.m_targetTable = some { target with
        slots := deleteSlots target.slots (input.iterator.map TableTuple.getSelfAddressColumn) } ∧
      ex'.calls = ex.calls ++ Call.iterator :: deleteCalls ex.m_targetTuple input.iterator
        ++ [.storeModifiedTupleCount input.iterator.length] ∧
      ex'.inputTables = ex.inputTables ∧ ex'.m_truncate = ex.m_truncate := by
  obtain ⟨h1, h2, h3⟩ := deleteLoop_spec input.iterator
    { m_inputTuple := ex.m_inputTuple
      m_targetTuple := ex.m_targetTuple
      target := target
      modifiedTuples := 0
      calls := ex.calls ++ [.iterator] }
  have hx : ex.p_execute = .ok
      { ex with
        m_inputTuple := (deleteLoop input.iterator
          { m_inputTuple := ex.m_inputTuple
            m_targetTuple := ex.m_targetTuple
            target := target
            modifiedTuples := 0
            calls := ex.calls ++ [.iterator] }).m_inputTuple
        m_targetTuple := (deleteLoop input.iterator
          { m_inputTuple := ex.m_inputTuple
            m_targetTuple := ex.m_targetTuple
            target := target
            modifiedTuples := 0
            calls := ex.calls ++ [.iterator] }).m_targetTuple
        m_targetTable := some (deleteLoop input.iterator
          { m_inputTuple := ex.m_inputTuple
            m_targetTuple := ex.m_targetTuple
            target := target
            modifiedTuples := 0
            calls := ex.calls ++ [.iterator] }).target
        calls := (deleteLoop input.iterator
          { m_inputTuple := ex.m_inputTuple
            m_targetTuple := ex.m_targetTuple
            target := target
            modifiedTuples := 0
            calls := ex.calls ++ [.iterator] }).calls ++ [.storeModifiedTupleCount
              (deleteLoop input.iterator
                { m_inputTuple := ex.m_inputTuple
                  m_targetTuple := ex.m_targetTuple
                  target := target
                  modifiedTuples := 0
                  calls := ex.calls ++ [.iterator] }).modifiedTuples] } := by
    simp [DeleteExecutor.p_execute, htarget, htruncate, hinput, hin, htg]
  refine ⟨_, hx, ?_, ?_, rfl, rfl⟩
  · simp only [h1]
  · simp only [h2, h3]
    simp

/-- C5. Targeted delete via address: when the first columns of the input rows hold
the addresses of `K` pairwise distinct active rows of the target table,
`p_execute` in targeted mode lowers the active tuple count of the target by
`K`, reports `K`, and leaves an iteration sequence of the target that is the
one before without the addressed rows: no addressed row is produced any more
and every other row still is. -/
theorem DeleteExecutor.p_execute_targeted_delete (ex : DeleteExecutor) (target input : Table)
    (htarget : ex.m_targetTable = some target) (htruncate : ex.m_truncate = false)
    (hinput : ex.m_inputTable = some input)
    (hin : ex.m_inputTuple.sizeInValues = input.columnCount)
    (htg : ex.m_targetTuple.sizeInValues = target.columnCount)
    (hdistinct : (input.iterator.map TableTuple.getSelfAddressColumn).Nodup)
    (hactive : ∀ a ∈ input.iterator.map TableTuple.getSelfAddressColumn,
      ∃ row, target.slots[a]? = some (some row)) :
    ∃ ex' target' pre, ex.p_execute = .ok ex' ∧ ex'.m_targetTable = some target' ∧
      target'.activeTupleCount = target.activeTupleCount - input.iterator.length ∧
      ex'.calls = pre ++ [.storeModifiedTupleCount input.iterator.length] ∧
      (∀ a ∈ input.iterator.map TableTuple.getSelfAddressColumn,
        ∀ t ∈ target'.iterator, t.address ≠ some a) ∧
      (∀ t ∈ target.iterator,
        (∀ a ∈ input.iterator.map TableTuple.getSelfAddressColumn, t.address ≠ some a) →
        t ∈ target'.iterator) ∧
      target'.iterator = target.iterator.filter (fun t =>
        decide (∀ a ∈ input.iterator.map TableTuple.getSelfAddressColumn, t.address ≠ some a)) := by
  obtain ⟨ex', h1, h2, h3, -, -⟩ :=
    DeleteExecutor.p_execute_loop_calls ex target input htarget htruncate hinput hin htg
  have hit : ({ target with
      slots := deleteSlots target.slots
        (input.iterator.map TableTuple.getSelfAddressColumn) } : Table).iterator
      = target.iterator.filter (fun t =>
        decide (∀ a ∈ input.iterator.map TableTuple.getSelfAddressColumn, t.address ≠ some a)) :=
    tuplesFrom_deleteSlots target.columnCount _ target.slots
  have hcount := deleteSlots_count _ target.slots hdistinct hactive
  refine ⟨ex', _, _, h1, h2, ?_, h3, ?_, ?_, hit⟩
  · simp only [Table.activeTupleCount]
    rw [List.length_map] at hcount
    omega
  · intro a ha t ht
    rw [hit, List.mem_filter] at ht
    exact (of_decide_eq_true ht.2) a ha
  · intro t ht hne
    rw [hit, List.mem_filter]
    exact ⟨ht, decide_eq_true hne⟩

/-- Witness of C5: deleting the rows at the addresses 2 and 5 of a table of 7
active rows leaves 5 active rows and reports 2. -/
theorem DeleteExecutor.p_execute_targeted_delete_witness :
    ((exampleAddresses.iterator.map TableTuple.getSelfAddressColumn) = [2, 5] ∧
      exampleSeven.activeTupleCount = 7) ∧
    ∃ ex' target' pre, exampleTargeted.p_execute = .ok ex' ∧
      ex'.m_targetTable = some target' ∧ target'.activeTupleCount = 5 ∧
      ex'.calls = pre ++ [.storeModifiedTupleCount 2] := by
  refine ⟨⟨by decide, by decide⟩, ?_⟩
  obtain ⟨ex', target', pre, h1, h2, h3, h4, -⟩ :=
    DeleteExecutor.p_execute_targeted_delete exampleTargeted exampleSeven exampleAddresses
      rfl rfl rfl rfl rfl (by decide) (by
        intro a ha
        have hs : List.map TableTuple.getSelfAddressColumn exampleAddresses.iterator = [2, 5] := by
          decide
        rw [hs] at ha
        simp only [List.mem_cons, List.mem_singleton, List.not_mem_nil, or_false] at ha
        rcases ha with rfl | rfl
        · exact ⟨[12], rfl⟩
        · exact ⟨[15], rfl⟩)
  exact ⟨ex', target', pre, h1, h2, by rw [h3]; decide, h4⟩

/-! ## The reported count (C9) -/

theorem deleteCalls_no_store (m_targetTuple : TableTuple) :
    ∀ (rows : List TableTuple) (m : Int),
      Call.storeModifiedTupleCount m ∉ deleteCalls m_targetTuple rows := by
  intro rows
  induction rows with
  | nil => intro m; simp [deleteCalls]
  | cons t rest ih => intro m; simp [deleteCalls, ih]

theorem deleteCalls_count_next (m_targetTuple : TableTuple) :
    ∀ (rows : List TableTuple),
      (deleteCalls m_targetTuple rows).count (Call.next true) = rows.length := by
  intro rows
  induction rows with
  | nil => simp [deleteCalls]
  | cons t rest ih => simp [deleteCalls, ih]

/-- C9. Modified-row count: once the asserts of `p_execute` hold, `p_execute` calls
`storeModifiedTupleCount` exactly once, as its last call.  In targeted mode
the value is the number of rows the input iterator produced, whatever their
first columns hold; in truncate mode it is the active tuple count read before
the bulk delete. -/
theorem DeleteExecutor.p_execute_modified_count (ex : DeleteExecutor) (target : Table)
    (htarget : ex.m_targetTable = some target)
    (hinit : ex.m_truncate = false → ∃ input, ex.m_inputTable = some input ∧
      ex.m_inputTuple.sizeInValues = input.columnCount ∧
      ex.m_targetTuple.sizeInValues = target.columnCount) :
    ∃ (ex' : DeleteExecutor) (pre : List Call) (n : Int), ex.p_execute = .ok ex' ∧
      ex'.calls = ex.calls ++ pre ++ [.storeModifiedTupleCount n] ∧
      (∀ m, Call.storeModifiedTupleCount m ∉ pre) ∧
      (ex.m_truncate = false → ∀ input, ex.m_inputTable = some input →
        n = (input.iterator.length : Int) ∧
        pre = Call.iterator :: deleteCalls ex.m_targetTuple input.iterator ∧
        pre.count (Call.next true) = input.iterator.length) ∧
      (ex.m_truncate = true → n = target.activeTupleCount ∧
        pre = [.activeTupleCount, .deleteAllTuples true]) := by
  cases htr : ex.m_truncate with
  | true =>
    have hx : ex.p_execute = .ok
        { ex with
          m_targetTable := some target.deleteAllTuples
          calls := ex.calls ++ [.activeTupleCount, .deleteAllTuples true,
            .storeModifiedTupleCount target.activeTupleCount] } := by
      simp [DeleteExecutor.p_execute, htarget, htr]
    refine ⟨_, [.activeTupleCount, .deleteAllTuples true], target.activeTupleCount, hx, ?_, ?_,
      ?_, ?_⟩
    · simp
    · intro m; simp
    · intro h; exact absurd h (by simp)
    · intro _; exact ⟨rfl, rfl⟩
  | false =>
    obtain ⟨input, hinput, hin, htg⟩ := hinit htr
    obtain ⟨ex', h1, -, h3, -, -⟩ :=
      DeleteExecutor.p_execute_loop_calls ex target input htarget htr hinput hin htg
    refine ⟨ex', Call.iterator :: deleteCalls ex.m_targetTuple input.iterator,
      (input.iterator.length : Int), h1, ?_, ?_, ?_, ?_⟩
    · rw [h3]
    · intro m hm
      rw [List.mem_cons] at hm
      rcases hm with hm | hm
      · exact absurd hm (by simp)
      · exact deleteCalls_no_store _ _ _ hm
    · intro _ input' hinput'
      rw [hinput] at hinput'
      have := Option.some.inj hinput'
      subst this
      refine ⟨rfl, rfl, ?_⟩
      rw [List.count_cons, deleteCalls_count_next]
      simp
    · intro h; exact absurd h (by simp)

/-- Witness of C9: for the input rows holding the addresses 2 and 5 the loop body
runs twice and the targeted delete reports 2, in its last and only call of
`storeModifiedTupleCount`; with an input table without rows it reports 0,
after the one `next` that finds the iterator exhausted. -/
theorem DeleteExecutor.p_execute_modified_count_witness :
    (exampleTargeted.m_targetTable = some exampleSeven ∧
      exampleTargeted.m_truncate = false ∧
      exampleTargeted.m_inputTable = some exampleAddresses ∧
      exampleAddresses.iterator.length = 2) ∧
    (∃ ex', exampleTargeted.p_execute = .ok ex' ∧
      ex'.calls =
        [.iterator,
         .next true, .deleteTuple { sizeInValues := 1, address := some 2, values := [] } true,
         .next true, .deleteTuple { sizeInValues := 1, address := some 5, values := [] } true,
         .next false, .storeModifiedTupleCount 2]) ∧
    ∃ ex', exampleTargetedEmpty.p_execute = .ok ex' ∧
      ex'.calls = [.iterator, .next false, .storeModifiedTupleCount 0] := by
  refine ⟨⟨rfl, rfl, rfl, by decide⟩, ?_, ?_⟩
  · obtain ⟨ex', pre, n, h1, h2, -, h4, -⟩ :=
      DeleteExecutor.p_execute_modified_count exampleTargeted exampleSeven rfl
        (fun _ => ⟨exampleAddresses, rfl, rfl, rfl⟩)
    obtain ⟨h5, h6, -⟩ := h4 rfl exampleAddresses rfl
    refine ⟨ex', h1, ?_⟩
    rw [h2, h5, h6]
    decide
  · obtain ⟨ex', pre, n, h1, h2, -, h4, -⟩ :=
      DeleteExecutor.p_execute_modified_count exampleTargetedEmpty exampleSeven rfl
        (fun _ => ⟨{ exampleAddresses with slots := [] }, rfl, rfl, rfl⟩)
    obtain ⟨h5, h6, -⟩ := h4 rfl { exampleAddresses with slots := [] } rfl
    refine ⟨ex', h1, ?_⟩
    rw [h2, h5, h6]
    rfl

/-! ## Initialisation of the delete executor (C10) -/

/-- C10. Arity validation: `p_init` fails when the bound node is not a delete node
and when the target table is missing; for a delete node with a target table,
in truncate mode it fails if and only if an input table is bound, and
otherwise if and only if the executor does not have exactly one input table;
whenever it does not fail it returns true and `m_truncate` is the truncate
flag of the node. -/
theorem DeleteExecutor.p_init_arity (ex : DeleteExecutor) :
    ((∀ node, ex.m_abstractNode ≠ .delete node) → ∃ f, ex.p_init = .error f) ∧
    (ex.m_targetTable = none → ∃ f, ex.p_init = .error f) ∧
    (∀ node target, ex.m_abstractNode = .delete node → ex.m_targetTable = some target →
      node.truncate = true →
      ((∃ f, ex.p_init = .error f) ↔ ex.m_inputTable ≠ none) ∧
      (ex.m_inputTable ≠ none ↔ ex.inputTables ≠ [])) ∧
    (∀ node target, ex.m_abstractNode = .delete node → ex.m_targetTable = some target →
      node.truncate = false →
      ((∃ f, ex.p_init = .error f) ↔ ex.inputTables.length ≠ 1) ∧
      (ex.hasExactlyOneInputTable = true ↔ ex.inputTables.length = 1)) ∧
    (∀ b ex', ex.p_init = .ok (b, ex') →
      b = true ∧ ∃ node, ex.m_abstractNode = .delete node ∧ ex'.m_truncate = node.truncate) := by
  refine ⟨?_, ?_, ?_, ?_, ?_⟩
  · intro h
    cases hn : ex.m_abstractNode with
    | delete node => exact absurd hn (h node)
    | seqScan node => exact ⟨.assertionFailed, by simp [DeleteExecutor.p_init, hn]⟩
    | other => exact ⟨.assertionFailed, by simp [DeleteExecutor.p_init, hn]⟩
  · intro h
    cases hn : ex.m_abstractNode with
    | delete node => exact ⟨.assertionFailed, by simp [DeleteExecutor.p_init, hn, h]⟩
    | seqScan node => exact ⟨.assertionFailed, by simp [DeleteExecutor.p_init, hn]⟩
    | other => exact ⟨.assertionFailed, by simp [DeleteExecutor.p_init, hn]⟩
  · intro node target hn ht htr
    constructor
    · cases hi : ex.inputTables with
      | nil => simp [DeleteExecutor.p_init, hn, ht, htr, DeleteExecutor.m_inputTable, hi]
      | cons i rest => simp [DeleteExecutor.p_init, hn, ht, htr, DeleteExecutor.m_inputTable, hi]
    · cases hi : ex.inputTables with
      | nil => simp [DeleteExecutor.m_inputTable, hi]
      | cons i rest => simp [DeleteExecutor.m_inputTable, hi]
  · intro node target hn ht htr
    constructor
    · cases hi : ex.inputTables with
      | nil =>
        simp [DeleteExecutor.p_init, hn, ht, htr, DeleteExecutor.hasExactlyOneInputTable, hi]
      | cons i rest =>
        cases rest with
        | nil =>
          simp [DeleteExecutor.p_init, hn, ht, htr, DeleteExecutor.hasExactlyOneInputTable,
            DeleteExecutor.m_inputTable, hi]
        | cons j rest2 =>
          simp [DeleteExecutor.p_init, hn, ht, htr, DeleteExecutor.hasExactlyOneInputTable, hi]
    · simp [DeleteExecutor.hasExactlyOneInputTable]
  · intro b ex' h
    cases hn : ex.m_abstractNode with
    | delete node =>
      cases ht : ex.m_targetTable with
      | none => simp [DeleteExecutor.p_init, hn, ht] at h
      | some target =>
        simp only [DeleteExecutor.p_init, hn, ht] at h
        split at h
        · split at h
          · injection h with h
            injection h with h1 h2
            exact ⟨h1.symm, node, rfl, by rw [← h2]⟩
          · exact absurd h (by simp)
        · split at h
          · exact absurd h (by simp)
          · split at h
            · exact absurd h (by simp)
            · injection h with h
              injection h with h1 h2
              exact ⟨h1.symm, node, rfl, by rw [← h2]⟩
    | seqScan node => simp [DeleteExecutor.p_init, hn] at h
    | other => simp [DeleteExecutor.p_init, hn] at h

/-! ## The scan leaves its target alone (C11) -/

theorem emitRow_frame (e : ScanEnv) (output : Table) (t : TableTuple) :
    ∃ row, (emitRow e output t).slots = output.slots ++ [some row] ∧
      (emitRow e output t).name = output.name ∧
      (emitRow e output t).isTempTable = output.isTempTable ∧
      (emitRow e output t).columnCount = output.columnCount := by
  unfold emitRow
  split
  · exact ⟨_, rfl, rfl, rfl, rfl⟩
  · exact ⟨_, rfl, rfl, rfl, rfl⟩

theorem scanLoop_frame (e : ScanEnv) :
    ∀ (rows : List TableTuple) (s : ScanLocals) (x : List TableTuple × ScanLocals),
      scanLoop e rows s = .ok x →
      ∃ appended, x.2.output.slots = s.output.slots ++ appended ∧
        x.2.output.name = s.output.name ∧
        x.2.output.isTempTable = s.output.isTempTable ∧
        x.2.output.columnCount = s.output.columnCount := by
  intro rows
  induction rows with
  | nil =>
    intro s x h
    simp only [scanLoop] at h
    cases h
    exact ⟨[], by simp, rfl, rfl, rfl⟩
  | cons t rest ih =>
    intro s x h
    simp only [scanLoop] at h
    split at h
    · split at h
      · split at h
        · obtain ⟨app, h1, h2, h3, h4⟩ := ih _ x h
          exact ⟨app, h1, h2, h3, h4⟩
        · split at h
          · obtain ⟨app, h1, h2, h3, h4⟩ := ih _ x h
            obtain ⟨row, e1, e2, e3, e4⟩ := emitRow_frame e s.output t
            refine ⟨some row :: app, ?_, ?_, ?_, ?_⟩
            · rw [h1]; simp only [e1]; simp
            · rw [h2]; exact e2
            · rw [h3]; exact e3
            · rw [h4]; exact e4
          · exact absurd h (by simp)
      · obtain ⟨app, h1, h2, h3, h4⟩ := ih _ x h
        exact ⟨app, h1, h2, h3, h4⟩
    · cases h
      exact ⟨[], by simp, rfl, rfl, rfl⟩

/-- C11. The scan never mutates its target table: whenever `p_execute` returns, the
target table of the executor is the table it was, rows and active count
included.  In the aliased case `p_execute` returns the executor as it was,
having fetched no row and evaluated no predicate.  With a temp output table
of its own `p_execute` returns, the target is untouched, and the output table
is the one before with rows appended at its end: name, dynamic type, schema
and the rows already there are as they were. -/
theorem SeqScanExecutor.p_execute_target_unchanged (ex : SeqScanExecutor)
    (node : SeqScanPlanNode) (target : Table)
    (hnode : ex.m_abstractNode = .seqScan node) (htarget : ex.m_targetTable = some target) :
    (∀ r, ex.p_execute = .ok r →
      r.executor.m_targetTable = some target ∧
      (∀ target', r.executor.m_targetTable = some target' →
        target'.slots = target.slots ∧ target'.iterator = target.iterator ∧
        target'.activeTupleCount = target.activeTupleCount)) ∧
    (ex.m_outputTable = .sameAsTarget →
      ex.p_execute = .ok { executor := ex, rowsFetched := 0, predicateEvals := 0 }) ∧
    (∀ out, ex.m_outputTable = .other out → out.isTempTable = true →
      ∃ r out' appended, ex.p_execute = .ok r ∧
        r.executor.m_targetTable = some target ∧
        r.executor.m_outputTable = .other out' ∧
        out'.slots = out.slots ++ appended ∧ out'.name = out.name ∧
        out'.isTempTable = true ∧ out'.columnCount = out.columnCount) := by
  have hkeep : ∀ r, ex.p_execute = .ok r → r.executor.m_targetTable = some target := by
    intro r h
    cases hout : ex.m_outputTable with
    | null => simp [SeqScanExecutor.p_execute, hnode, htarget, hout] at h
    | sameAsTarget =>
      simp only [SeqScanExecutor.p_execute, hnode, htarget, hout] at h
      injection h with h
      rw [← h]
      exact htarget
    | other out =>
      simp only [SeqScanExecutor.p_execute, hnode, htarget, hout] at h
      split at h
      · exact absurd h (by simp)
      · injection h with h
        rw [← h]
  refine ⟨?_, ?_, ?_⟩
  · intro r h
    refine ⟨hkeep r h, ?_⟩
    intro target' h'
    rw [hkeep r h] at h'
    have := Option.some.inj h'
    subst this
    exact ⟨rfl, rfl, rfl⟩
  · intro halias
    simp only [SeqScanExecutor.p_execute, hnode, htarget, halias]
  · intro out hout htemp
    obtain ⟨x, hx⟩ := scanLoop_succeeds (ex.scanEnv node out) htemp target.iterator
      { m_tuple := ex.m_tuple, tuple_ctr := 0, tuple_skipped := 0, output := out,
        predicateEvals := 0 }
    obtain ⟨appended, h1, h2, h3, h4⟩ := scanLoop_frame _ _ _ _ hx
    have hr := p_execute_of_scanLoop ex node target out x hnode htarget hout hx
    exact ⟨_, x.2.output, appended, hr, htarget, rfl, h1, h2, by rw [h3]; exact htemp, h4⟩

/-- Witness of C11: the scan `column0 > 2` with limit 2 and offset 1 over the rows
1..5 leaves the target as it was and appends to the empty temp table. -/
theorem SeqScanExecutor.p_execute_target_unchanged_witness :
    ((exampleScan exampleScanNode).m_abstractNode = .seqScan exampleScanNode ∧
      (exampleScan exampleScanNode).m_targetTable = some exampleTarget) ∧
    (∃ r out', (exampleScan exampleScanNode).p_execute = .ok r ∧
      r.executor.m_targetTable = some exampleTarget ∧
      r.executor.m_outputTable = .other out' ∧ out'.isTempTable = true) ∧
    exampleAliasScan.p_execute
      = .ok { executor := exampleAliasScan, rowsFetched := 0, predicateEvals := 0 } := by
  have h := SeqScanExecutor.p_execute_target_unchanged (exampleScan exampleScanNode)
    exampleScanNode exampleTarget rfl rfl
  obtain ⟨r, out', appended, h1, h2, h3, -, -, h6, -⟩ :=
    h.2.2 (setTempOutputTable 1 "T") rfl rfl
  exact ⟨⟨rfl, rfl⟩, ⟨r, out', h1, h2, h3, h6⟩, rfl⟩

/-! ## The sequence of deletes (C12) -/

theorem deleteCalls_filter (m_targetTuple : TableTuple) :
    ∀ (rows : List TableTuple),
      (deleteCalls m_targetTuple rows).filter Call.isDeleteTuple
        = rows.map (fun r => Call.deleteTuple (m_targetTuple.move r.getSelfAddressColumn) true) := by
  intro rows
  induction rows with
  | nil => simp [deleteCalls, Call.isDeleteTuple]
  | cons t rest ih => simp [deleteCalls, Call.isDeleteTuple, ih]

theorem foldl_deleteTuple (cc : Nat) :
    ∀ (rows : List TableTuple) (tbl : Table),
      rows.foldl (fun (tbl : Table) r =>
        tbl.deleteTuple
          { sizeInValues := cc, address := some r.getSelfAddressColumn, values := [] }) tbl
        = { tbl with
            slots := deleteSlots tbl.slots (rows.map TableTuple.getSelfAddressColumn) } := by
  intro rows
  induction rows with
  | nil => intro tbl; simp [deleteSlots]
  | cons t rest ih =>
    intro tbl
    rw [List.foldl_cons, ih]
    simp [Table.deleteTuple, deleteSlots]

/-- C12. Sequence of deletes in targeted mode: for input rows `r_1 .. r_n` in
iteration order, `p_execute` issues exactly `n` calls of `deleteTuple`, the
`i`-th on the target-schema tuple moved to the address in the first column of
`r_i` and with the flag true, in this order; the target table is left as
these deletes leave it, one after the other, and the input tables are as they
were. -/
theorem DeleteExecutor.p_execute_delete_sequence (ex : DeleteExecutor) (target input : Table)
    (htarget : ex.m_targetTable = some target) (htruncate : ex.m_truncate = false)
    (hinput : ex.m_inputTable = some input)
    (hin : ex.m_inputTuple.sizeInValues = input.columnCount)
    (htg : ex.m_targetTuple.sizeInValues = target.columnCount) :
    ∃ ex' issued, ex.p_execute = .ok ex' ∧ ex'.calls = ex.calls ++ issued ∧
      issued.filter Call.isDeleteTuple = input.iterator.map (fun r =>
        Call.deleteTuple
          { sizeInValues := target.columnCount, address := some r.getSelfAddressColumn,
            values := [] } true) ∧
      (issued.filter Call.isDeleteTuple).length = input.iterator.length ∧
      ex'.m_targetTable = some (input.iterator.foldl (fun (tbl : Table) r =>
        tbl.deleteTuple
          { sizeInValues := target.columnCount, address := some r.getSelfAddressColumn,
            values := [] }) target) ∧
      ex'.inputTables = ex.inputTables ∧ ex'.m_inputTable = some input := by
  obtain ⟨ex', h1, h2, h3, h4, -⟩ :=
    DeleteExecutor.p_execute_loop_calls ex target input htarget htruncate hinput hin htg
  have hmove : (fun r : TableTuple =>
      Call.deleteTuple (ex.m_targetTuple.move r.getSelfAddressColumn) true)
      = (fun r : TableTuple => Call.deleteTuple
          { sizeInValues := target.columnCount, address := some r.getSelfAddressColumn,
            values := [] } true) := by
    funext r; simp [TableTuple.move, htg]
  have hf : (Call.iterator :: deleteCalls ex.m_targetTuple input.iterator
      ++ [Call.storeModifiedTupleCount input.iterator.length]).filter Call.isDeleteTuple
      = input.iterator.map (fun r => Call.deleteTuple
          { sizeInValues := target.columnCount, address := some r.getSelfAddressColumn,
            values := [] } true) := by
    rw [← hmove, ← deleteCalls_filter]
    simp [List.filter_cons, List.filter_append, Call.isDeleteTuple]
  refine ⟨ex', Call.iterator :: deleteCalls ex.m_targetTuple input.iterator
      ++ [Call.storeModifiedTupleCount input.iterator.length], h1, ?_, hf, ?_, ?_, h4, ?_⟩
  · rw [h3]; simp
  · rw [hf, List.length_map]
  · rw [h2, foldl_deleteTuple]
  · simp only [DeleteExecutor.m_inputTable] at hinput ⊢
    rw [h4]; exact hinput

/-- Witness of C12: for the input rows holding the addresses 2 and 5 the two
deletes are issued on the tuples at 2 and at 5, in this order. -/
theorem DeleteExecutor.p_execute_delete_sequence_witness :
    (exampleTargeted.m_targetTable = some exampleSeven ∧ exampleTargeted.m_truncate = false ∧
      exampleTargeted.m_inputTable = some exampleAddresses) ∧
    ∃ ex' issued, exampleTargeted.p_execute = .ok ex' ∧ ex'.calls = issued ∧
      issued.filter Call.isDeleteTuple =
        [.deleteTuple { sizeInValues := 1, address := some 2, values := [] } true,
         .deleteTuple { sizeInValues := 1, address := some 5, values := [] } true] := by
  refine ⟨⟨rfl, rfl, rfl⟩, ?_⟩
  obtain ⟨ex', issued, h1, h2, h3, -⟩ :=
    DeleteExecutor.p_execute_delete_sequence exampleTargeted exampleSeven exampleAddresses
      rfl rfl rfl rfl rfl
  refine ⟨ex', issued, h1, by rw [h2]; rfl, ?_⟩
  rw [h3]
  decide

/-! ## The two delete modes (C13) -/

theorem deleteCalls_no_deleteAll (m_targetTuple : TableTuple) :
    ∀ (rows : List TableTuple) (flag : Bool),
      Call.deleteAllTuples flag ∉ deleteCalls m_targetTuple rows := by
  intro rows
  induction rows with
  | nil => intro flag; simp [deleteCalls]
  | cons t rest ih => intro flag; simp [deleteCalls, ih]

/-- C13. The two delete modes are mutually exclusive and fixed: once the asserts of
`p_execute` hold, `p_execute` returns and leaves `m_truncate` as it was.  In
truncate mode the calls it issues are the read of the active tuple count, one
`deleteAllTuples(true)` and the report of the count: exactly one
`deleteAllTuples`, with the flag true, no `deleteTuple`, and no iterator is
created or advanced.  In targeted mode it issues no `deleteAllTuples`. -/
theorem DeleteExecutor.p_execute_modes_exclusive (ex : DeleteExecutor) (target : Table)
    (htarget : ex.m_targetTable = some target)
    (hinit : ex.m_truncate = false → ∃ input, ex.m_inputTable = some input ∧
      ex.m_inputTuple.sizeInValues = input.columnCount ∧
      ex.m_targetTuple.sizeInValues = target.columnCount) :
    ∃ ex' issued, ex.p_execute = .ok ex' ∧ ex'.calls = ex.calls ++ issued ∧
      ex'.m_truncate = ex.m_truncate ∧
      (ex.m_truncate = true →
        issued = [.activeTupleCount, .deleteAllTuples true,
          .storeModifiedTupleCount target.activeTupleCount] ∧
        issued.count (Call.deleteAllTuples true) = 1 ∧
        Call.deleteAllTuples false ∉ issued ∧
        (∀ tuple flag, Call.deleteTuple tuple flag ∉ issued) ∧
        Call.iterator ∉ issued ∧ (∀ produced, Call.next produced ∉ issued)) ∧
      (ex.m_truncate = false →
        (∀ flag, Call.deleteAllTuples flag ∉ issued) ∧ Call.iterator ∈ issued) := by
  cases htr : ex.m_truncate with
  | true =>
    have hx : ex.p_execute = .ok
        { ex with
          m_targetTable := some target.deleteAllTuples
          calls := ex.calls ++ [.activeTupleCount, .deleteAllTuples true,
            .storeModifiedTupleCount target.activeTupleCount] } := by
      simp [DeleteExecutor.p_execute, htarget, htr]
    refine ⟨_, [.activeTupleCount, .deleteAllTuples true,
      .storeModifiedTupleCount target.activeTupleCount], hx, rfl, htr.symm ▸ rfl, ?_, ?_⟩
    · intro _
      refine ⟨rfl, ?_, ?_, ?_, ?_, ?_⟩
      · simp [List.count_cons]
      · simp
      · intro tuple flag; simp
      · simp
      · intro produced; simp
    · intro h; exact absurd h (by simp)
  | false =>
    obtain ⟨input, hinput, hin, htg⟩ := hinit htr
    obtain ⟨ex', h1, -, h3, -, h5⟩ :=
      DeleteExecutor.p_execute_loop_calls ex target input htarget htr hinput hin htg
    refine ⟨ex', Call.iterator :: deleteCalls ex.m_targetTuple input.iterator
      ++ [Call.storeModifiedTupleCount input.iterator.length], h1, ?_, ?_, ?_, ?_⟩
    · rw [h3]; simp
    · rw [h5, htr]
    · intro h; exact absurd h (by simp)
    · intro _
      refine ⟨?_, by simp⟩
      intro flag hm
      simp only [List.cons_append, List.mem_cons, List.mem_append, List.mem_singleton,
        List.not_mem_nil, or_false] at hm
      rcases hm with hm | hm | hm
      · exact absurd hm (by simp)
      · exact deleteCalls_no_deleteAll _ _ _ hm
      · exact absurd hm (by simp)

/-- Witness of C13: truncating the table of 7 rows issues the three calls of the
truncate path and leaves the mode as it was. -/
theorem DeleteExecutor.p_execute_modes_exclusive_witness :
    (exampleTruncate.m_targetTable = some exampleSeven ∧ exampleTruncate.m_truncate = true) ∧
    ∃ ex', exampleTruncate.p_execute = .ok ex' ∧ ex'.m_truncate = true ∧
      ex'.calls = [.activeTupleCount, .deleteAllTuples true, .storeModifiedTupleCount 7] := by
  refine ⟨⟨rfl, rfl⟩, ?_⟩
  obtain ⟨ex', issued, h1, h2, h3, h4, -⟩ :=
    DeleteExecutor.p_execute_modes_exclusive exampleTruncate exampleSeven rfl
      (fun h => absurd h (by decide))
  obtain ⟨h5, -⟩ := h4 rfl
  refine ⟨ex', h1, by rw [h3]; rfl, ?_⟩
  rw [h2, h5]
  decide

/-! ## A limit below the sentinel (C14) -/

theorem scanLoop_guard_false (e : ScanEnv) (rows : List TableTuple) (s : ScanLocals)
    (h1 : e.limit ≠ -1) (h2 : ¬ s.tuple_ctr < e.limit) :
    scanLoop e rows s = .ok (rows, s) := by
  cases rows with
  | nil => rfl
  | cons t rest =>
    have hg : ¬ (e.limit = -1 ∨ s.tuple_ctr < e.limit) := by
      intro h
      rcases h with h | h
      · exact h1 h
      · exact h2 h
    simp only [scanLoop, if_neg hg]

/-- C14. A limit below the sentinel is not unbounded: when the inline limit node
supplies a limit `L < -1`, `p_execute` returns the executor as it was, output
table included, having fetched no row and evaluated no predicate, whatever
the target, the predicate and the offset are; with `L = -1` (and a temp
output table) it fetches every row of the target. -/
theorem SeqScanExecutor.p_execute_limit_below_sentinel (ex : SeqScanExecutor)
    (node : SeqScanPlanNode) (target out : Table) (L O : Int)
    (hnode : ex.m_abstractNode = .seqScan node) (htarget : ex.m_targetTable = some target)
    (hout : ex.m_outputTable = .other out)
    (hlimit : node.getInlineLimit = some (L, O)) :
    (L < -1 →
      ex.p_execute = .ok { executor := ex, rowsFetched := 0, predicateEvals := 0 }) ∧
    (L = -1 → O < 2147483648 → out.isTempTable = true →
      ∃ r, ex.p_execute = .ok r ∧ r.rowsFetched = target.iterator.length) := by
  obtain ⟨hl, ho⟩ := scanEnv_limit ex node out L O hlimit
  constructor
  · intro hL
    have hloop := scanLoop_guard_false (ex.scanEnv node out) target.iterator
      { m_tuple := ex.m_tuple, tuple_ctr := 0, tuple_skipped := 0, output := out,
        predicateEvals := 0 } (by rw [hl]; omega) (by rw [hl]; simp only []; omega)
    have hr := p_execute_of_scanLoop ex node target out _ hnode htarget hout hloop
    rw [hr]
    cases ex
    simp only at hout
    simp [hout]
  · intro hL hO htemp
    obtain ⟨r, h1, -, h3, -⟩ := p_execute_scan ex node target out hnode htarget hout htemp
      (by rw [ho]; exact hO) (by rw [hl]; omega)
    refine ⟨r, h1, ?_⟩
    rw [h3, hl, hL]
    simp [remainingLimit, fetchedRows_none]

/-- Witness of C14: with limit -2 the scan over the rows 1..5 fetches nothing and
leaves the temp table empty. -/
theorem SeqScanExecutor.p_execute_limit_below_sentinel_witness :
    (exampleNegativeNode.getInlineLimit = some (-2, 0)) ∧
    (exampleScan exampleNegativeNode).p_execute
      = .ok { executor := exampleScan exampleNegativeNode, rowsFetched := 0,
              predicateEvals := 0 } :=
  ⟨rfl, (SeqScanExecutor.p_execute_limit_below_sentinel (exampleScan exampleNegativeNode)
    exampleNegativeNode exampleTarget (setTempOutputTable 1 "T") (-2) 0 rfl rfl rfl rfl).1
    (by decide)⟩

/-! ## The downcast to a temp table (C15) -/

theorem p_execute_keeps_valid (ex : SeqScanExecutor) (node : SeqScanPlanNode) (target : Table)
    (hnode : ex.m_abstractNode = .seqScan node) (htarget : ex.m_targetTable = some target)
    (hvalid : ex.m_outputTable.isTargetOrTemp = true) :
    ∃ r, ex.p_execute = .ok r ∧ r.executor.m_abstractNode = .seqScan node ∧
      r.executor.m_targetTable = some target ∧
      r.executor.m_outputTable.isTargetOrTemp = true ∧
      r.executor.m_columnExpressions = ex.m_columnExpressions ∧
      r.executor.m_columnsOnly = ex.m_columnsOnly := by
  cases hout : ex.m_outputTable with
  | null => rw [hout] at hvalid; exact absurd hvalid (by simp [TableRef.isTargetOrTemp])
  | sameAsTarget =>
    refine ⟨{ executor := ex, rowsFetched := 0, predicateEvals := 0 }, ?_, hnode, htarget,
      by rw [hout]; rfl, rfl, rfl⟩
    simp only [SeqScanExecutor.p_execute, hnode, htarget, hout]
  | other out =>
    have htemp : out.isTempTable = true := by
      rw [hout] at hvalid; exact hvalid
    obtain ⟨x, hx⟩ := scanLoop_succeeds (ex.scanEnv node out) htemp target.iterator
      { m_tuple := ex.m_tuple, tuple_ctr := 0, tuple_skipped := 0, output := out,
        predicateEvals := 0 }
    obtain ⟨appended, -, -, h3, -⟩ := scanLoop_frame _ _ _ _ hx
    have hr := p_execute_of_scanLoop ex node target out x hnode htarget hout hx
    exact ⟨_, hr, hnode, htarget, by simp only [TableRef.isTargetOrTemp]; rw [h3]; exact htemp,
      rfl, rfl⟩

theorem executeTimes_valid :
    ∀ (n : Nat) (ex : SeqScanExecutor) (node : SeqScanPlanNode) (target : Table),
      ex.m_abstractNode = .seqScan node → ex.m_targetTable = some target →
      ex.m_outputTable.isTargetOrTemp = true →
      ∃ ex', ex.executeTimes n = .ok ex' ∧ ex'.m_outputTable.isTargetOrTemp = true := by
  intro n
  induction n with
  | zero => intro ex node target _ _ hv; exact ⟨ex, rfl, hv⟩
  | succ n ih =>
    intro ex node target hnode htarget hv
    obtain ⟨r, h1, h2, h3, h4, -, -⟩ := p_execute_keeps_valid ex node target hnode htarget hv
    obtain ⟨ex', h5, h6⟩ := ih r.executor node target h2 h3 h4
    exact ⟨ex', by simp only [SeqScanExecutor.executeTimes, h1, h5], h6⟩

theorem scanLoop_null_output (e : ScanEnv) (t : TableTuple) (rest : List TableTuple)
    (s : ScanLocals) (hcast : e.output_temp_table = false) (hlimit : e.limit = -1)
    (hq : qualifies e.predicate t = true) (hoff : ¬ s.tuple_skipped < e.offset) :
    scanLoop e (t :: rest) s = .error .nullDereference := by
  simp [scanLoop, hcast, hlimit, hq, hoff]

theorem p_setOutputTable_valid (ex0 ex1 : SeqScanExecutor)
    (h : ex0.p_setOutputTable = .ok ex1) :
    ∃ node target, ex1.m_abstractNode = .seqScan node ∧ ex1.m_targetTable = some target ∧
      ex1.m_outputTable.isTargetOrTemp = true := by
  cases htarget : ex0.m_targetTable with
  | none => simp [SeqScanExecutor.p_setOutputTable, htarget] at h
  | some target =>
    cases hnode : ex0.m_abstractNode with
    | seqScan node =>
      simp only [SeqScanExecutor.p_setOutputTable, htarget, hnode] at h
      split at h
      · injection h with h
        subst h
        exact ⟨node, target, rfl, rfl, rfl⟩
      · injection h with h
        subst h
        exact ⟨node, target, rfl, rfl, rfl⟩
    | delete node => simp [SeqScanExecutor.p_setOutputTable, htarget, hnode] at h
    | other => simp [SeqScanExecutor.p_setOutputTable, htarget, hnode] at h

theorem p_init_keeps (ex1 ex2 : SeqScanExecutor) (b : Bool) (h : ex1.p_init = .ok (b, ex2)) :
    ex2.m_abstractNode = ex1.m_abstractNode ∧ ex2.m_targetTable = ex1.m_targetTable ∧
      ex2.m_outputTable = ex1.m_outputTable := by
  cases hnode : ex1.m_abstractNode with
  | seqScan node =>
    simp only [SeqScanExecutor.p_init, hnode] at h
    split at h
    · injection h with h
      injection h with h1 h2
      subst h2
      exact ⟨hnode.symm ▸ rfl, rfl, rfl⟩
    · split at h
      · exact absurd h (by simp)
      · injection h with h
        injection h with h1 h2
        subst h2
        cases hp : node.getInlineProjection <;> simp [hnode]
  | delete node => simp [SeqScanExecutor.p_init, hnode] at h
  | other => simp [SeqScanExecutor.p_init, hnode] at h

theorem p_init_succeeds (ex1 : SeqScanExecutor) (node : SeqScanPlanNode) (target : Table)
    (hnode : ex1.m_abstractNode = .seqScan node) (htarget : ex1.m_targetTable = some target) :
    ∃ ex2, ex1.p_init = .ok (true, ex2) := by
  by_cases hal : ex1.outputIsTarget = true
  · exact ⟨ex1, by simp [SeqScanExecutor.p_init, hnode, hal]⟩
  · cases hp : node.getInlineProjection with
    | none => exact ⟨_, by simp only [SeqScanExecutor.p_init, hnode, hal, hp, htarget]; rfl⟩
    | some es => exact ⟨_, by simp only [SeqScanExecutor.p_init, hnode, hal, hp, htarget]; rfl⟩

/-- C15. The temp-table downcast in the scan cannot fail: after `p_setOutputTable`
the output table is the target table itself or a temp table; `p_init` then
succeeds and leaves the output table as it is; and every later execution,
however many follow one another, returns without a null dereference and
leaves an output table that is again the target itself or a temp table, so
that whenever the aliased early return is passed the downcast
`output_temp_table` is non-null. -/
theorem SeqScanExecutor.p_execute_downcast_valid (ex0 ex1 : SeqScanExecutor)
    (hset : ex0.p_setOutputTable = .ok ex1) :
    ex1.m_outputTable.isTargetOrTemp = true ∧
    (∀ node out, ex1.m_outputTable = .other out →
      (ex1.scanEnv node out).output_temp_table = true) ∧
    (∀ n, ∃ ex', ex1.executeTimes n = .ok ex' ∧ ex'.m_outputTable.isTargetOrTemp = true) ∧
    (∃ ex2, ex1.p_init = .ok (true, ex2)) ∧
    (∀ b ex2, ex1.p_init = .ok (b, ex2) →
      ex2.m_outputTable = ex1.m_outputTable ∧
      (∀ node out, ex2.m_outputTable = .other out →
        (ex2.scanEnv node out).output_temp_table = true) ∧
      (∃ r, ex2.p_execute = .ok r) ∧
      (∀ n, ∃ ex', ex2.executeTimes n = .ok ex' ∧
        ex'.m_outputTable.isTargetOrTemp = true)) := by
  obtain ⟨node, target, hnode, htarget, hvalid⟩ := p_setOutputTable_valid ex0 ex1 hset
  refine ⟨hvalid, ?_, ?_, p_init_succeeds ex1 node target hnode htarget, ?_⟩
  · intro node' out hout
    rw [hout] at hvalid
    exact hvalid
  · intro n
    exact executeTimes_valid n ex1 node target hnode htarget hvalid
  · intro b ex2 hinit
    obtain ⟨h1, h2, h3⟩ := p_init_keeps ex1 ex2 b hinit
    have hvalid2 : ex2.m_outputTable.isTargetOrTemp = true := by rw [h3]; exact hvalid
    refine ⟨h3, ?_, ?_, ?_⟩
    · intro node' out hout
      rw [hout] at hvalid2
      exact hvalid2
    · obtain ⟨r, hr, -⟩ := p_execute_keeps_valid ex2 node target (by rw [h1]; exact hnode)
        (by rw [h2]; exact htarget) hvalid2
      exact ⟨r, hr⟩
    · intro n
      exact executeTimes_valid n ex2 node target (by rw [h1]; exact hnode)
        (by rw [h2]; exact htarget) hvalid2

/-- Witness of C15: for the scan `column0 > 2` the output table set up is a temp
table, and two executions in a row return. -/
theorem SeqScanExecutor.p_execute_downcast_valid_witness :
    ((exampleFreshScan exampleFilterNode).p_setOutputTable
      = .ok { exampleFreshScan exampleFilterNode with
              m_outputTable := .other (setTempOutputTable 1 "T") }) ∧
    ∃ ex', ({ exampleFreshScan exampleFilterNode with
              m_outputTable := .other (setTempOutputTable 1 "T") } :
        SeqScanExecutor).executeTimes 2 = .ok ex' ∧
      ex'.m_outputTable.isTargetOrTemp = true :=
  ⟨rfl, (SeqScanExecutor.p_execute_downcast_valid (exampleFreshScan exampleFilterNode)
    { exampleFreshScan exampleFilterNode with
      m_outputTable := .other (setTempOutputTable 1 "T") } rfl).2.2.1 2⟩

/-! ## Repeated executions of the scan (C16) -/

theorem sameBeyond_refl (n : Nat) (a : List NValue) : sameBeyond n a a := ⟨rfl, fun _ _ => rfl⟩

theorem sameBeyond_symm {n : Nat} {a b : List NValue} (h : sameBeyond n a b) :
    sameBeyond n b a := ⟨h.1.symm, fun k hk => (h.2 k hk).symm⟩

theorem sameBeyond_trans {n : Nat} {a b c : List NValue} (h1 : sameBeyond n a b)
    (h2 : sameBeyond n b c) : sameBeyond n a c :=
  ⟨h1.1.trans h2.1, fun k hk => (h1.2 k hk).trans (h2.2 k hk)⟩

theorem evalColumnExpressions_getElem? (exprs : List AbstractExpression) (t : TableTuple)
    (n : Nat) (temp : List NValue) (k : Nat) :
    (evalColumnExpressions exprs t n temp)[k]?
      = if k < n then (temp[k]?).map (fun _ => (exprs.getD k (.tupleValue 0)).eval t)
        else temp[k]? := by
  rw [evalColumnExpressions_eq_writeColumns, writeColumns_getElem?]
  simp only [List.mem_reverse, List.mem_range]

theorem evalColumnExpressions_length (exprs : List AbstractExpression) (t : TableTuple) :
    ∀ (n : Nat) (temp : List NValue),
      (evalColumnExpressions exprs t n temp).length = temp.length := by
  intro n
  induction n with
  | zero => intro temp; rfl
  | succ n ih => intro temp; simp [evalColumnExpressions, ih, setNValue]

theorem evalColumnExpressions_sameBeyond (exprs : List AbstractExpression) (t : TableTuple)
    (n : Nat) (temp : List NValue) :
    sameBeyond n (evalColumnExpressions exprs t n temp) temp := by
  refine ⟨evalColumnExpressions_length exprs t n temp, ?_⟩
  intro k hk
  rw [evalColumnExpressions_getElem?, if_neg (by omega)]

theorem evalColumnExpressions_congr (exprs : List AbstractExpression) (t : TableTuple)
    (n : Nat) (a b : List NValue) (h : sameBeyond n a b) :
    evalColumnExpressions exprs t n a = evalColumnExpressions exprs t n b := by
  apply List.ext_getElem?
  intro k
  rw [evalColumnExpressions_getElem?, evalColumnExpressions_getElem?]
  by_cases hk : k < n
  · simp only [if_pos hk]
    by_cases hl : k < a.length
    · have hl' : k < b.length := by rw [← h.1]; exact hl
      simp [List.getElem?_eq_getElem hl, List.getElem?_eq_getElem hl']
    · have hl' : ¬ k < b.length := by rw [← h.1]; exact hl
      simp [List.getElem?_eq_none (Nat.le_of_not_lt hl), List.getElem?_eq_none (Nat.le_of_not_lt hl')]
  · simp only [if_neg hk]
    exact h.2 k (by omega)

theorem emitRow_sameBeyond (e : ScanEnv) (out1 out2 : Table) (t : TableTuple)
    (h : sameBeyond e.columnsWritten out1.tempTuple out2.tempTuple) :
    ∃ row, (emitRow e out1 t).slots = out1.slots ++ [some row] ∧
      (emitRow e out2 t).slots = out2.slots ++ [some row] ∧
      sameBeyond e.columnsWritten (emitRow e out1 t).tempTuple out1.tempTuple ∧
      sameBeyond e.columnsWritten (emitRow e out2 t).tempTuple out2.tempTuple := by
  unfold ScanEnv.columnsWritten at h ⊢
  unfold emitRow
  by_cases hp : e.hasInlineProjection = true
  · simp only [hp, if_true] at h ⊢
    by_cases hc : e.projectsColumnsOnly = true
    · simp only [hc, if_true, copyColumnsOnly_eq_eval] at h ⊢
      refine ⟨_, rfl, ?_, evalColumnExpressions_sameBeyond _ _ _ _,
        evalColumnExpressions_sameBeyond _ _ _ _⟩
      simp only [Table.insertTempTuple]
      rw [evalColumnExpressions_congr _ _ _ _ _ h]
    · have hc' : e.projectsColumnsOnly = false := by
        cases hx : e.projectsColumnsOnly with
        | true => exact absurd hx hc
        | false => rfl
      simp only [hc', Bool.false_eq_true, if_false] at h ⊢
      refine ⟨_, rfl, ?_, evalColumnExpressions_sameBeyond _ _ _ _,
        evalColumnExpressions_sameBeyond _ _ _ _⟩
      simp only [Table.insertTempTuple]
      rw [evalColumnExpressions_congr _ _ _ _ _ h]
  · have hp' : e.hasInlineProjection = false := by
      cases hx : e.hasInlineProjection with
      | true => exact absurd hx hp
      | false => rfl
    simp only [hp', Bool.false_eq_true, if_false] at h ⊢
    exact ⟨_, rfl, rfl, sameBeyond_refl _ _, sameBeyond_refl _ _⟩

theorem scanLoop_simulation (e : ScanEnv) :
    ∀ (rows : List TableTuple) (s1 s2 : ScanLocals) (x1 : List TableTuple × ScanLocals),
      s1.tuple_ctr = s2.tuple_ctr → s1.tuple_skipped = s2.tuple_skipped →
      sameBeyond e.columnsWritten s1.output.tempTuple s2.output.tempTuple →
      scanLoop e rows s1 = .ok x1 →
      ∃ (x2 : List TableTuple × ScanLocals) (appended : List (Option (List NValue))) (d : Nat),
        scanLoop e rows s2 = .ok x2 ∧ x2.1 = x1.1 ∧
        x1.2.output.slots = s1.output.slots ++ appended ∧
        x2.2.output.slots = s2.output.slots ++ appended ∧
        sameBeyond e.columnsWritten x1.2.output.tempTuple s1.output.tempTuple ∧
        x1.2.predicateEvals = s1.predicateEvals + d ∧
        x2.2.predicateEvals = s2.predicateEvals + d := by
  intro rows
  induction rows with
  | nil =>
    intro s1 s2 x1 _ _ _ h
    simp only [scanLoop] at h
    cases h
    exact ⟨([], s2), [], 0, rfl, rfl, by simp, by simp, sameBeyond_refl _ _, rfl, rfl⟩
  | cons t rest ih =>
    intro s1 s2 x1 hc hs hb h
    by_cases hg : e.limit = -1 ∨ s1.tuple_ctr < e.limit
    · have hg2 : e.limit = -1 ∨ s2.tuple_ctr < e.limit := by rw [← hc]; exact hg
      by_cases hq : qualifies e.predicate t = true
      · by_cases hk : s1.tuple_skipped < e.offset
        · have hk2 : s2.tuple_skipped < e.offset := by rw [← hs]; exact hk
          simp only [scanLoop, if_pos hg, hq, if_true, if_pos hk] at h
          obtain ⟨x2, app, d, g1, g2, g3, g4, g5, g6, g7⟩ := ih
            { s1 with m_tuple := t,
                      predicateEvals := s1.predicateEvals + (if e.predicate.isSome then 1 else 0),
                      tuple_skipped := wrapInt32 (s1.tuple_skipped + 1) }
            { s2 with m_tuple := t,
                      predicateEvals := s2.predicateEvals + (if e.predicate.isSome then 1 else 0),
                      tuple_skipped := wrapInt32 (s2.tuple_skipped + 1) } x1
            hc (by simp only [hs]) hb h
          refine ⟨x2, app, (if e.predicate.isSome then 1 else 0) + d, ?_, g2, g3, g4, g5, ?_, ?_⟩
          · simp only [scanLoop, if_pos hg2, hq, if_true, if_pos hk2]
            exact g1
          · rw [g6]; simp only []; omega
          · rw [g7]; simp only []; omega
        · have hk2 : ¬ s2.tuple_skipped < e.offset := by rw [← hs]; exact hk
          by_cases hcast : e.output_temp_table = true
          · simp only [scanLoop, if_pos hg, hq, if_true, if_neg hk, hcast] at h
            obtain ⟨row, r1, r2, r3, r4⟩ := emitRow_sameBeyond e s1.output s2.output t hb
            obtain ⟨x2, app, d, g1, g2, g3, g4, g5, g6, g7⟩ := ih
              { s1 with m_tuple := t,
                        predicateEvals := s1.predicateEvals + (if e.predicate.isSome then 1 else 0),
                        tuple_ctr := wrapInt32 (s1.tuple_ctr + 1),
                        output := emitRow e s1.output t }
              { s2 with m_tuple := t,
                        predicateEvals := s2.predicateEvals + (if e.predicate.isSome then 1 else 0),
                        tuple_ctr := wrapInt32 (s2.tuple_ctr + 1),
                        output := emitRow e s2.output t } x1
              (by simp only [hc]) hs
              (sameBeyond_trans r3 (sameBeyond_trans hb (sameBeyond_symm r4))) h
            refine ⟨x2, some row :: app, (if e.predicate.isSome then 1 else 0) + d, ?_, g2, ?_, ?_,
              sameBeyond_trans g5 r3, ?_, ?_⟩
            · simp only [scanLoop, if_pos hg2, hq, if_true, if_neg hk2, hcast]
              exact g1
            · rw [g3]; simp only [r1]; simp
            · rw [g4]; simp only [r2]; simp
            · rw [g6]; simp only []; omega
            · rw [g7]; simp only []; omega
          · simp only [scanLoop, if_pos hg, hq, if_true, if_neg hk, hcast] at h
            exact absurd h (by simp)
      · simp only [scanLoop, if_pos hg, hq] at h
        obtain ⟨x2, app, d, g1, g2, g3, g4, g5, g6, g7⟩ := ih
          { s1 with m_tuple := t,
                    predicateEvals := s1.predicateEvals + (if e.predicate.isSome then 1 else 0) }
          { s2 with m_tuple := t,
                    predicateEvals := s2.predicateEvals + (if e.predicate.isSome then 1 else 0) }
          x1 hc hs hb h
        refine ⟨x2, app, (if e.predicate.isSome then 1 else 0) + d, ?_, g2, g3, g4, g5, ?_, ?_⟩
        · simp only [scanLoop, if_pos hg2, hq]
          exact g1
        · rw [g6]; simp only []; omega
        · rw [g7]; simp only []; omega
    · have hg2 : ¬ (e.limit = -1 ∨ s2.tuple_ctr < e.limit) := by rw [← hc]; exact hg
      simp only [scanLoop, if_neg hg] at h
      cases h
      exact ⟨(t :: rest, s2), [], 0, by simp only [scanLoop, if_neg hg2], rfl, by simp, by simp,
        sameBeyond_refl _ _, rfl, rfl⟩

/-- C16. The scan carries no state from one execution to the next: with a temp
output table, `p_execute` returns, and so does a second `p_execute` on the
executor the first one left; each of the two appends the same sequence of
rows to the output table, after fetching the same number of rows and
evaluating the predicate the same number of times, and neither changes
`m_columnExpressions`, `m_columnsOnly` or the target table.  In the aliased
case both executions are the same no-op. -/
theorem SeqScanExecutor.p_execute_no_carried_state (ex : SeqScanExecutor)
    (node : SeqScanPlanNode) (target : Table)
    (hnode : ex.m_abstractNode = .seqScan node) (htarget : ex.m_targetTable = some target) :
    (∀ out, ex.m_outputTable = .other out → out.isTempTable = true →
      ∃ r1 r2 out1 out2 emitted, ex.p_execute = .ok r1 ∧ r1.executor.p_execute = .ok r2 ∧
        r1.executor.m_outputTable = .other out1 ∧ r2.executor.m_outputTable = .other out2 ∧
        out1.slots = out.slots ++ emitted ∧ out2.slots = out1.slots ++ emitted ∧
        r1.rowsFetched = r2.rowsFetched ∧ r1.predicateEvals = r2.predicateEvals ∧
        r1.executor.m_columnExpressions = ex.m_columnExpressions ∧
        r1.executor.m_columnsOnly = ex.m_columnsOnly ∧
        r2.executor.m_columnExpressions = ex.m_columnExpressions ∧
        r2.executor.m_columnsOnly = ex.m_columnsOnly ∧
        r1.executor.m_targetTable = some target ∧ r2.executor.m_targetTable = some target) ∧
    (ex.m_outputTable = .sameAsTarget →
      ∃ r1, ex.p_execute = .ok r1 ∧ r1.executor.p_execute = .ok r1 ∧
        r1.rowsFetched = 0 ∧ r1.predicateEvals = 0) := by
  constructor
  · intro out hout htemp
    obtain ⟨x1, hx1⟩ := scanLoop_succeeds (ex.scanEnv node out) htemp target.iterator
      { m_tuple := ex.m_tuple, tuple_ctr := 0, tuple_skipped := 0, output := out,
        predicateEvals := 0 }
    obtain ⟨-, -, -, -, -, -, -, g5, -, -⟩ := scanLoop_simulation (ex.scanEnv node out)
      target.iterator _ _ x1 rfl rfl (sameBeyond_refl _ _) hx1
    obtain ⟨-, -, -, f3, -⟩ := scanLoop_frame _ _ _ _ hx1
    obtain ⟨x2, emitted, d, k1, k2, k3, k4, -, k6, k7⟩ :=
      scanLoop_simulation (ex.scanEnv node out) target.iterator
        { m_tuple := ex.m_tuple, tuple_ctr := 0, tuple_skipped := 0, output := out,
          predicateEvals := 0 }
        { m_tuple := x1.2.m_tuple, tuple_ctr := 0, tuple_skipped := 0, output := x1.2.output,
          predicateEvals := 0 } x1 rfl rfl (sameBeyond_symm g5) hx1
    have henv : ({ ex with m_tuple := x1.2.m_tuple, m_outputTable := .other x1.2.output } :
        SeqScanExecutor).scanEnv node x1.2.output = ex.scanEnv node out := by
      simp only [SeqScanExecutor.scanEnv, f3]
    have hr1 := p_execute_of_scanLoop ex node target out x1 hnode htarget hout hx1
    have hr2 := p_execute_of_scanLoop
      ({ ex with m_tuple := x1.2.m_tuple, m_outputTable := .other x1.2.output } :
        SeqScanExecutor) node target x1.2.output x2 hnode htarget rfl
      (by rw [henv]; exact k1)
    refine ⟨_, _, x1.2.output, x2.2.output, emitted, hr1, hr2, rfl, rfl, k3, k4, ?_, ?_,
      rfl, rfl, rfl, rfl, htarget, htarget⟩
    · simp only [k2]
    · simp only [k6, k7]
  · intro halias
    have hx : ex.p_execute = .ok { executor := ex, rowsFetched := 0, predicateEvals := 0 } := by
      simp only [SeqScanExecutor.p_execute, hnode, htarget, halias]
    exact ⟨_, hx, hx, rfl, rfl⟩

/-- Witness of C16: the scan `column0 > 2` with limit 2 and offset 1 over the rows
1..5, executed twice, appends the rows 4 and 5 each time. -/
theorem SeqScanExecutor.p_execute_no_carried_state_witness :
    ((exampleScan exampleScanNode).m_abstractNode = .seqScan exampleScanNode ∧
      (exampleScan exampleScanNode).m_targetTable = some exampleTarget) ∧
    ∃ r1 r2 out2, (exampleScan exampleScanNode).p_execute = .ok r1 ∧
      r1.executor.p_execute = .ok r2 ∧ r2.executor.m_outputTable = .other out2 ∧
      out2.slots = [some [4], some [5], some [4], some [5]] := by
  refine ⟨⟨rfl, rfl⟩, ?_⟩
  obtain ⟨r1, r2, out1, out2, emitted, h1, h2, h3, h4, h5, h6, -⟩ :=
    (SeqScanExecutor.p_execute_no_carried_state (exampleScan exampleScanNode) exampleScanNode
      exampleTarget rfl rfl).1 (setTempOutputTable 1 "T") rfl rfl
  have h7 : (match (exampleScan exampleScanNode).p_execute with
      | .ok r => (match r.executor.m_outputTable with
        | .other t => t.slots
        | _ => [])
      | .error _ => []) = [some [4], some [5]] := by decide
  rw [h1] at h7
  simp only [h3] at h7
  have h8 : emitted = [some [4], some [5]] := by
    rw [h5] at h7
    simpa [setTempOutputTable] using h7
  exact ⟨r1, r2, out2, h1, h2, h4, by rw [h6, h7, h8]; rfl⟩

end voltdb
